import Mathlib

/-!
# Verification of the BTL-agency scraper's cleaning and deduplication core

A shallow embedding of the repository's data-cleaning and entity-resolution
code (`src/helpers.py`, `src/data_cleaner.py`, `src/duplicate_handler.py`,
`src/main.py`) into Lean 4, together with theorems settling the spec's claims
about it.

Text is modelled as `List Char` (Python `str`), Python `float` as `ℚ`
(the values exercised here are exactly representable), Python `int` as `ℤ`,
and heterogeneous raw-record values as the `Value` sum type.  Regular
expressions are modelled by direct scanning functions implementing the
leftmost-match semantics of `re.search` / `re.findall` / `re.sub` for the
concrete patterns appearing in the source.
-/

namespace BtlScraper

/-- The `List Char` view of a string literal. -/
def chars (s : String) : List Char := s.data

/-! ## Character classes (Python `str` predicates restricted to the
ASCII + Cyrillic repertoire this program processes) -/

/-- Python `\s` (ASCII whitespace: space, tab, newline, CR, VT, FF). -/
def isPySpace (c : Char) : Bool :=
  if c.toNat = 32 ∨ c.toNat = 9 ∨ c.toNat = 10 ∨ c.toNat = 13 ∨ c.toNat = 11 ∨ c.toNat = 12
  then true else false

/-- Python `\d` (decimal digit). -/
def isPyDigit (c : Char) : Bool :=
  if 48 ≤ c.toNat ∧ c.toNat ≤ 57 then true else false

/-- ASCII letter. -/
def isAsciiAlpha (c : Char) : Bool :=
  if (65 ≤ c.toNat ∧ c.toNat ≤ 90) ∨ (97 ≤ c.toNat ∧ c.toNat ≤ 122) then true else false

/-- ASCII letter or digit. -/
def isAsciiAlnum (c : Char) : Bool := isAsciiAlpha c || isPyDigit c

/-- Cyrillic letter (basic range А-я plus Ё/ё). -/
def isCyrillic (c : Char) : Bool :=
  if (0x410 ≤ c.toNat ∧ c.toNat ≤ 0x44F) ∨ c.toNat = 0x401 ∨ c.toNat = 0x451
  then true else false

/-- Python `\w` (word character) over the repertoire in use. -/
def isPyWordChar (c : Char) : Bool := isAsciiAlnum c || c = '_' || isCyrillic c

/-- Cased letter (for `str.title`). -/
def isPyAlphaChar (c : Char) : Bool := isAsciiAlpha c || isCyrillic c

/-- Python `str.lower` on one character (ASCII + Cyrillic). -/
def pyLowerChar (c : Char) : Char :=
  if 65 ≤ c.toNat ∧ c.toNat ≤ 90 then Char.ofNat (c.toNat + 32)
  else if 0x410 ≤ c.toNat ∧ c.toNat ≤ 0x42F then Char.ofNat (c.toNat + 0x20)
  else if c.toNat = 0x401 then Char.ofNat 0x451
  else c

/-- Python `str.upper` on one character (ASCII + Cyrillic). -/
def pyUpperChar (c : Char) : Char :=
  if 97 ≤ c.toNat ∧ c.toNat ≤ 122 then Char.ofNat (c.toNat - 32)
  else if 0x430 ≤ c.toNat ∧ c.toNat ≤ 0x44F then Char.ofNat (c.toNat - 0x20)
  else if c.toNat = 0x451 then Char.ofNat 0x401
  else c

def pyLower (s : List Char) : List Char := s.map pyLowerChar

def pyUpper (s : List Char) : List Char := s.map pyUpperChar

/-! ## Basic string operations -/

/-- Python `str.strip()`. -/
def pyStrip (s : List Char) : List Char :=
  ((s.dropWhile isPySpace).reverse.dropWhile isPySpace).reverse

/-- Embeds `s.startswith(pat)` / anchored regex literal match. -/
def startsWith : List Char → List Char → Bool
  | _, [] => true
  | [], _ :: _ => false
  | c :: s, p :: ps => c = p && startsWith s ps

/-- Python `pat in s` (substring containment). -/
def containsSub : List Char → List Char → Bool
  | [], pat => pat.isEmpty
  | s@(_ :: rest), pat => startsWith s pat || containsSub rest pat

/-- Replace every maximal run of characters satisfying `p` by a single
space: `re.sub(r'[class]+', ' ', s)`. -/
def replaceRunsAux (p : Char → Bool) : Bool → List Char → List Char
  | _, [] => []
  | inRun, c :: rest =>
    if p c then
      (if inRun then replaceRunsAux p true rest else ' ' :: replaceRunsAux p true rest)
    else c :: replaceRunsAux p false rest

def replaceRuns (p : Char → Bool) (s : List Char) : List Char := replaceRunsAux p false s

/-- Embeds `re.sub(r'\s+', ' ', s)`. -/
def collapseWs (s : List Char) : List Char := replaceRuns isPySpace s

/-- Python `str.replace(pat, '')`: delete every (leftmost, non-overlapping)
occurrence of the non-empty pattern.  Fuel is the string length; each step
consumes at least one character, so it suffices. -/
def replaceAllAux (pat : List Char) : Nat → List Char → List Char
  | 0, s => s
  | fuel + 1, s =>
    match s with
    | [] => []
    | c :: rest =>
      if startsWith (c :: rest) pat then replaceAllAux pat fuel ((c :: rest).drop pat.length)
      else c :: replaceAllAux pat fuel rest

def replaceAll (s pat : List Char) : List Char :=
  if pat.isEmpty then s else replaceAllAux pat s.length s

/-- Python `str.split()` (split on whitespace runs, no empty tokens). -/
def pySplitAux : List Char → List Char → List (List Char)
  | acc, [] => if acc.isEmpty then [] else [acc.reverse]
  | acc, c :: rest =>
    if isPySpace c then
      (if acc.isEmpty then pySplitAux [] rest else acc.reverse :: pySplitAux [] rest)
    else pySplitAux (c :: acc) rest

def pySplit (s : List Char) : List (List Char) := pySplitAux [] s

/-- Split on `'.'`, keeping empty parts (Python `str.split('.')`). -/
def splitOnDotAux : List Char → List Char → List (List Char)
  | acc, [] => [acc.reverse]
  | acc, c :: rest =>
    if c = '.' then acc.reverse :: splitOnDotAux [] rest else splitOnDotAux (c :: acc) rest

def splitOnDot (s : List Char) : List (List Char) := splitOnDotAux [] s

/-- Python `str.title()`: a cased character is uppercased when the previous
character is not cased, lowercased otherwise. -/
def pyTitleAux : Bool → List Char → List Char
  | _, [] => []
  | prevCased, c :: rest =>
    (if prevCased then pyLowerChar c else pyUpperChar c) :: pyTitleAux (isPyAlphaChar c) rest

def pyTitle (s : List Char) : List Char := pyTitleAux false s

/-- First maximal run of digits in `s`: `re.findall(r'\d+', s)[0]`. -/
def firstDigitRun : List Char → Option (List Char)
  | [] => none
  | c :: rest =>
    if isPyDigit c then some ((c :: rest).takeWhile isPyDigit) else firstDigitRun rest

/-- Numeric value of a digit string. -/
def natOfDigits (ds : List Char) : Nat := ds.foldl (fun n c => 10 * n + (c.toNat - 48)) 0

def natRepr (n : Nat) : List Char := Nat.toDigits 10 n

def intRepr (i : Int) : List Char :=
  if i < 0 then '-' :: natRepr i.natAbs else natRepr i.natAbs

/-- Python `int()` truncation toward zero of a float. -/
def pyIntOfFloat (q : ℚ) : Int := if 0 ≤ q then ⌊q⌋ else -⌊-q⌋

/-- Python `int(s)` on a string: optional whitespace, optional sign,
digits; anything else raises `ValueError` (modelled as `none`). -/
def parsePyInt (s : List Char) : Option Int :=
  match pyStrip s with
  | '-' :: ds => if ¬ds.isEmpty ∧ ds.all isPyDigit then some (-(natOfDigits ds : Int)) else none
  | '+' :: ds => if ¬ds.isEmpty ∧ ds.all isPyDigit then some ((natOfDigits ds : Int)) else none
  | ds => if ¬ds.isEmpty ∧ ds.all isPyDigit then some ((natOfDigits ds : Int)) else none

/-- First `some` produced by `f` along a list. -/
def firstSome {α β : Type} (f : α → Option β) : List α → Option β
  | [] => none
  | a :: rest => match f a with | some b => some b | none => firstSome f rest

/-! ## `helpers.clean_text`: HTML-tag removal and whitespace collapsing -/

/-- Scan to the first `'>'`; `some rest` is the input after it. -/
def dropTagCont : List Char → Option (List Char)
  | [] => none
  | c :: rest => if c = '>' then some rest else dropTagCont rest

/-- Given the characters after a `'<'`, consume a `[^>]+>` tag body:
at least one non-`'>'` character followed by `'>'`. -/
def dropTag : List Char → Option (List Char)
  | [] => none
  | c :: rest => if c = '>' then none else dropTagCont rest

/-- Embeds `re.sub(r'<[^>]+>', '', s)`: delete every leftmost HTML-tag match;
a `'<'` with no well-formed tag after it is kept verbatim.  Structural
recursion on fuel so concrete inputs reduce in the kernel; every step
consumes at least one character (see `dropTag_length`), so fuel equal to
the input length always suffices. -/
def removeTagsAux : Nat → List Char → List Char
  | 0, s => s
  | _ + 1, [] => []
  | fuel + 1, c :: rest =>
    if c = '<' then
      match dropTag rest with
      | some rest' => removeTagsAux fuel rest'
      | none => c :: removeTagsAux fuel rest
    else c :: removeTagsAux fuel rest

def removeTags (s : List Char) : List Char := removeTagsAux s.length s

/-- Embeds `helpers.clean_text`: strip HTML tags, collapse whitespace runs to a
single space, strip the ends.  (The Python function first checks `if not
text`; for the empty string the pipeline below also yields `[]`.) -/
def cleanText (s : List Char) : List Char := pyStrip (collapseWs (removeTags s))

/-! ## `helpers.parse_revenue` -/

/-- Embeds `re.findall(r'\d+[,.]?\d*', s)`: scan left to right; at each digit,
take the maximal digit run, an optional `','`/`'.'` separator, and a
further (possibly empty) digit run as one token.  Structural recursion on
fuel (the input length, which every step strictly decreases) so concrete
inputs reduce in the kernel. -/
def findNumbersAux : Nat → List Char → List (List Char)
  | 0, _ => []
  | _ + 1, [] => []
  | fuel + 1, c :: rest =>
    if isPyDigit c then
      let ds1 := (c :: rest).takeWhile isPyDigit
      match (c :: rest).dropWhile isPyDigit with
      | sep :: r2 =>
        if sep = ',' ∨ sep = '.' then
          (ds1 ++ sep :: r2.takeWhile isPyDigit) :: findNumbersAux fuel (r2.dropWhile isPyDigit)
        else ds1 :: findNumbersAux fuel (sep :: r2)
      | [] => [ds1]
    else findNumbersAux fuel rest

def findNumbers (s : List Char) : List (List Char) := findNumbersAux s.length s

/-- Embeds `float(t)` for a token of shape `\d+[,.]?\d*` whose separator has been
normalised to `'.'` (always parses, so the `except ValueError` branch of
`parse_revenue` is unreachable).  The exact decimal value
`int + frac / 10^|frac|` is built with `mkRat` so that it reduces in the
kernel. -/
def parseFloatToken (t : List Char) : ℚ :=
  let intPart := t.takeWhile isPyDigit
  match t.dropWhile isPyDigit with
  | _sep :: frac =>
    mkRat (natOfDigits intPart * 10 ^ frac.length + natOfDigits frac) (10 ^ frac.length)
  | [] => mkRat (natOfDigits intPart) 1

/-- Exact multiplication of a rational by an integer unit
(`q * k`, written on the canonical representation so it reduces in the
kernel; `Rat.mul` normalizes to the same value). -/
def ratScale (q : ℚ) (k : Nat) : ℚ := mkRat (q.num * k) q.den

/-- Embeds `helpers.parse_revenue`.  Note the source overwrites `revenue_str` with
the cleaned string `re.sub(r'[^\d,.\s]', '', revenue_str.lower())` before
binding `original_str = revenue_str.lower()`, so the magnitude-word checks
below run against the cleaned (letter-free) string. -/
def parseRevenue (s : List Char) : Option ℚ :=
  if s.isEmpty then none
  else
    let cleaned := (pyLower s).filter (fun c => isPyDigit c || c = ',' || c = '.' || isPySpace c)
    match findNumbers cleaned with
    | [] => none
    | n :: _ =>
      let revenue := parseFloatToken (n.map (fun c => if c = ',' then '.' else c))
      let originalStr := pyLower cleaned
      let revenue :=
        if containsSub originalStr (chars "млрд") || containsSub originalStr (chars "billion") then
          ratScale revenue 1000000000
        else if containsSub originalStr (chars "млн") || containsSub originalStr (chars "million") then
          ratScale revenue 1000000
        else if containsSub originalStr (chars "тыс") || containsSub originalStr (chars "thousand") then
          ratScale revenue 1000
        else revenue
      some revenue

/-! ## Raw record values -/

/-- A heterogeneous Python value as delivered by a collector. -/
inductive Value where
  | vnone : Value
  | vstr : List Char → Value
  | vint : Int → Value
  | vfloat : ℚ → Value
deriving DecidableEq

/-- Python truthiness of a raw value. -/
def Value.falsy : Value → Bool
  | .vnone => true
  | .vstr s => s.isEmpty
  | .vint n => n = 0
  | .vfloat q => q = 0

/-- Python `str()`.  `str(float)` is modelled exactly for integral values
and by a 17-digit truncated decimal expansion otherwise (floats themselves
are modelled as rationals, so the binary shortest-roundtrip repr is out of
scope; no claim depends on it). -/
def floatRepr (q : ℚ) : List Char :=
  if q.den = 1 then intRepr q.num ++ chars ".0"
  else
    let sgn : List Char := if q < 0 then ['-'] else []
    let aq := |q|
    let ip := (⌊aq⌋).toNat
    let fr := aq - (ip : ℚ)
    let scaled := (⌊fr * 10 ^ 17⌋).toNat
    let ds := natRepr scaled
    let ds := List.replicate (17 - ds.length) '0' ++ ds
    let ds := (ds.reverse.dropWhile (fun c => c = '0')).reverse
    sgn ++ natRepr ip ++ '.' :: (if ds.isEmpty then ['0'] else ds)

def pyStr : Value → List Char
  | .vnone => chars "None"
  | .vstr s => s
  | .vint n => intRepr n
  | .vfloat q => floatRepr q

/-- Exceptions that can escape a field cleaner into
`DataCleaner.clean_single_company`'s `except` block. -/
inductive PyErr where
  | typeError : PyErr
  | attributeError : PyErr
deriving DecidableEq

deriving instance DecidableEq for Except

/-! ## DataCleaner field cleaners -/

/-- Embeds `helpers.normalize_company_name`'s anchored legal-form patterns,
in source order (matched case-insensitively, then `\s*`, then an
optional quote). -/
def legalPrefixForms : List (List Char) :=
  [chars "ооо", chars "зао", chars "оао", chars "ао", chars "ип",
   chars "общество с ограниченной ответственностью"]

/-- Strip one anchored legal-form pattern `^FORM\s*["']?` (IGNORECASE). -/
def stripLegalPrefixForm (form : List Char) (name : List Char) : List Char :=
  if startsWith (pyLower name) form then
    match (name.drop form.length).dropWhile isPySpace with
    | c :: rest => if c = '"' ∨ c = '\'' then rest else c :: rest
    | [] => []
  else name

/-- Embeds `re.sub(r'^["\']|["\']$', '', name)`: drop one leading and one
trailing quote (non-overlapping leftmost matches). -/
def dropFrontQuote : List Char → List Char
  | c :: rest => if c = '"' ∨ c = '\'' then rest else c :: rest
  | [] => []

def dropBackQuote (l : List Char) : List Char :=
  match l.getLast? with
  | some c => if c = '"' ∨ c = '\'' then l.dropLast else l
  | none => l

/-- Embeds `helpers.normalize_company_name`. -/
def normalizeCompanyName (s : List Char) : List Char :=
  if s.isEmpty then []
  else
    let n := cleanText s
    let n := legalPrefixForms.foldl (fun n form => stripLegalPrefixForm form n) n
    pyStrip (dropBackQuote (dropFrontQuote n))

/-- Characters kept verbatim by `_clean_company_name`'s
`re.sub(r'[^\w\s\-\&\.\(\)\"\']+', ' ', name)`. -/
def allowedNameChar (c : Char) : Bool :=
  isPyWordChar c || isPySpace c || c = '-' || c = '&' || c = '.' ||
    c = '(' || c = ')' || c = '"' || c = '\''

/-- Embeds `DataCleaner._clean_company_name` on an actual string. -/
def cleanCompanyNameStr (s : List Char) : List Char :=
  if s.isEmpty then []
  else
    pyStrip (collapseWs (replaceRuns (fun c => !allowedNameChar c) (normalizeCompanyName s)))

/-- Embeds `DataCleaner._clean_company_name` on a raw value: a truthy non-string
reaches `clean_text`'s `re.sub`, raising `TypeError`. -/
def cleanCompanyNameE : Value → Except PyErr (List Char)
  | .vstr s => .ok (cleanCompanyNameStr s)
  | v => if v.falsy then .ok [] else .error .typeError

/-- Embeds `DataCleaner._clean_inn`: falsy → `""`; else `str(inn).strip()`,
keep digits, accept iff exactly 10 or 12 of them. -/
def cleanInnV (v : Value) : List Char :=
  if v.falsy then []
  else
    let ds := (pyStrip (pyStr v)).filter isPyDigit
    if ds.length = 10 ∨ ds.length = 12 then ds else []

/-- Embeds `_clean_inn` restricted to string input. -/
def cleanInn (s : List Char) : List Char := cleanInnV (.vstr s)

/-- Embeds `DataCleaner._clean_revenue`: numbers pass through as floats; strings
go through `parse_revenue` with falsy results (None or 0.0) mapped to 0.0;
other types yield 0.0. -/
def cleanRevenueV : Value → ℚ
  | .vint n => (n : ℚ)
  | .vfloat q => q
  | .vstr s => match parseRevenue s with
      | some r => if r = 0 then 0 else r
      | none => 0
  | .vnone => 0

/-- Embeds `DataCleaner._clean_revenue_year`: `int(year)` (ValueError/TypeError
→ default), accepted iff in [2000, 2025], else 2024. -/
def cleanRevenueYearV : Value → Int
  | .vint n => if 2000 ≤ n ∧ n ≤ 2025 then n else 2024
  | .vfloat q => let n := pyIntOfFloat q; if 2000 ≤ n ∧ n ≤ 2025 then n else 2024
  | .vstr s => match parsePyInt s with
      | some n => if 2000 ≤ n ∧ n ≤ 2025 then n else 2024
      | none => 2024
  | .vnone => 2024

/-- The fixed segment vocabulary, in the declared priority order of
`DataCleaner._clean_segment_tag`. -/
def validTags : List (List Char) :=
  [chars "BTL", chars "SOUVENIR", chars "FULL_CYCLE", chars "COMM_GROUP",
   chars "EVENT", chars "PROMO"]

/-- Embeds `DataCleaner._clean_segment_tag` on an actual string: empty → `""`;
else first tag (in declared order) contained in the uppercased input,
defaulting to `"BTL"`. -/
def cleanSegmentTagStr (s : List Char) : List Char :=
  if s.isEmpty then []
  else
    match validTags.find? (fun t => containsSub (pyUpper s) t) with
    | some t => t
    | none => chars "BTL"

/-- Embeds `_clean_segment_tag` on a raw value: `.upper()` on a truthy
non-string raises `AttributeError`. -/
def cleanSegmentTagE : Value → Except PyErr (List Char)
  | .vstr s => .ok (cleanSegmentTagStr s)
  | v => if v.falsy then .ok [] else .error .attributeError

/-- Embeds `DataCleaner._clean_source` on an actual string. -/
def cleanSourceStr (s : List Char) : List Char :=
  let low := pyLower s
  if containsSub low (chars "rrar") || containsSub low (chars "alladvertising") then
    chars "rrar_2025"
  else if containsSub low (chars "marketing-tech") || containsSub low (chars "marketing_tech") then
    chars "marketing_tech"
  else if containsSub low (chars "fns") then chars "fns_open_data"
  else if containsSub low (chars "rusprofile") then chars "rusprofile"
  else if containsSub low (chars "list-org") || containsSub low (chars "list_org") then
    chars "list_org"
  else low

/-- Embeds `_clean_source` on a raw value: falsy → `"unknown"`; `.lower()` on a
truthy non-string raises `AttributeError`. -/
def cleanSourceE : Value → Except PyErr (List Char)
  | .vstr s => .ok (if s.isEmpty then chars "unknown" else cleanSourceStr s)
  | v => if v.falsy then .ok (chars "unknown") else .error .attributeError

/-- Try `re.search(r'\d{2}\.\d{1,2}(?:\.\d{1,2})?', _)`'s pattern at one
position (the pattern is deterministic: the optional group matches iff a
dot with at least one digit follows). -/
def matchOkvedAt (l : List Char) : Option (List Char) :=
  match l with
  | d1 :: d2 :: '.' :: rest =>
    if isPyDigit d1 ∧ isPyDigit d2 then
      let g1 := (rest.takeWhile isPyDigit).take 2
      if g1.isEmpty then none
      else
        match rest.drop g1.length with
        | '.' :: rest3 =>
          let g2 := (rest3.takeWhile isPyDigit).take 2
          if g2.isEmpty then some (d1 :: d2 :: '.' :: g1)
          else some (d1 :: d2 :: '.' :: g1 ++ '.' :: g2)
        | _ => some (d1 :: d2 :: '.' :: g1)
    else none
  | _ => none

def searchOkved : List Char → Option (List Char)
  | [] => none
  | c :: rest =>
    match matchOkvedAt (c :: rest) with
    | some m => some m
    | none => searchOkved rest

/-- Embeds `DataCleaner._clean_okved`: falsy → `""`; else first occurrence of the
OKVED pattern in `str(okved)`, else `""`. -/
def cleanOkvedV (v : Value) : List Char :=
  if v.falsy then [] else (searchOkved (pyStr v)).getD []

/-- Embeds `DataCleaner._clean_employees`: strings yield their first digit run
(no digits → `int(s)` raises, caught → 0); numbers are truncated to int
(0 for falsy); all errors → 0. -/
def cleanEmployeesV : Value → Int
  | .vstr s => match firstDigitRun s with
      | some ds => (natOfDigits ds : Int)
      | none => 0
  | .vint n => n
  | .vfloat q => if q = 0 then 0 else pyIntOfFloat q
  | .vnone => 0

/-- Embeds `DataCleaner._clean_description` on an actual string: clean text,
truncate to 300 characters plus a `"..."` marker when longer. -/
def cleanDescriptionStr (s : List Char) : List Char :=
  if s.isEmpty then []
  else
    let desc := cleanText s
    if desc.length > 300 then desc.take 300 ++ chars "..." else desc

/-- Embeds `_clean_description` on a raw value: `clean_text` on a truthy
non-string raises `TypeError`. -/
def cleanDescriptionE : Value → Except PyErr (List Char)
  | .vstr s => .ok (cleanDescriptionStr s)
  | v => if v.falsy then .ok [] else .error .typeError

/-- Embeds `DataCleaner._clean_region`'s synonym table, in source (insertion)
order; substring-matched against the lowercased cleaned region. -/
def regionMapping : List (List Char × List Char) :=
  [(chars "москва", chars "Москва"),
   (chars "moscow", chars "Москва"),
   (chars "спб", chars "Санкт-Петербург"),
   (chars "санкт-петербург", chars "Санкт-Петербург"),
   (chars "питер", chars "Санкт-Петербург"),
   (chars "petersburg", chars "Санкт-Петербург"),
   (chars "екатеринбург", chars "Екатеринбург"),
   (chars "новосибирск", chars "Новосибирск"),
   (chars "казань", chars "Казань"),
   (chars "нижний новгород", chars "Нижний Новгород"),
   (chars "ростов-на-дону", chars "Ростов-на-Дону")]

/-- Embeds `DataCleaner._clean_region` on an actual string. -/
def cleanRegionStr (s : List Char) : List Char :=
  if s.isEmpty then []
  else
    let region := cleanText s
    let rl := pyLower region
    match regionMapping.find? (fun kv => containsSub rl kv.1) with
    | some kv => kv.2
    | none => pyTitle region

def cleanRegionE : Value → Except PyErr (List Char)
  | .vstr s => .ok (cleanRegionStr s)
  | v => if v.falsy then .ok [] else .error .typeError

/-! ## `helpers.extract_phone` / `helpers.extract_email` -/

/-- Separator class `[\s\-\(\)]` of the phone patterns. -/
def phoneSep (c : Char) : Bool := isPySpace c || c = '-' || c = '(' || c = ')'

/-- Separator class `[\s\-]`. -/
def wsDash (c : Char) : Bool := isPySpace c || c = '-'

/-- Consume an optional single character satisfying `p` (`[class]?`;
no backtracking is ever needed because the separator classes are
disjoint from `\d`). -/
def optChar (p : Char → Bool) : List Char → List Char
  | c :: rest => if p c then rest else c :: rest
  | [] => []

/-- Consume exactly `n` digits. -/
def takeDigits (n : Nat) (l : List Char) : Option (List Char) :=
  if (l.take n).length = n ∧ (l.take n).all isPyDigit then some (l.drop n) else none

/-- The shared tail `[\s\-\(\)]?\d{3}[\s\-\(\)]?\d{3}[\s\-]?\d{2}[\s\-]?\d{2}`
of phone patterns 1 and 2; returns the remaining input. -/
def matchPhoneTail (l : List Char) : Option (List Char) := do
  let r ← takeDigits 3 (optChar phoneSep l)
  let r ← takeDigits 3 (optChar phoneSep r)
  let r ← takeDigits 2 (optChar wsDash r)
  let r ← takeDigits 2 (optChar wsDash r)
  some r

/-- Match length of `\+7...` (pattern 1) at the current position. -/
def matchPhone1 : List Char → Option Nat
  | '+' :: '7' :: r => (matchPhoneTail r).map (fun rem => 2 + (r.length - rem.length))
  | _ => none

/-- Match length of `8...` (pattern 2) at the current position. -/
def matchPhone2 : List Char → Option Nat
  | '8' :: r => (matchPhoneTail r).map (fun rem => 1 + (r.length - rem.length))
  | _ => none

/-- Match length of `\(\d{3}\)[\s\-]?\d{3}[\s\-]?\d{2}[\s\-]?\d{2}`
(pattern 3) at the current position. -/
def matchPhone3 : List Char → Option Nat
  | '(' :: r =>
    (do
      let r1 ← takeDigits 3 r
      match r1 with
      | ')' :: r2 =>
        let r3 ← takeDigits 3 (optChar wsDash r2)
        let r4 ← takeDigits 2 (optChar wsDash r3)
        let r5 ← takeDigits 2 (optChar wsDash r4)
        some (1 + (r.length - r5.length))
      | _ => none)
  | _ => none

/-- Embeds `re.search`: first position (left to right) where `m` matches;
returns the matched text. -/
def searchBy (m : List Char → Option Nat) : List Char → Option (List Char)
  | [] => none
  | c :: rest =>
    match m (c :: rest) with
    | some n => some ((c :: rest).take n)
    | none => searchBy m rest

/-- Embeds `helpers.extract_phone`: try the three patterns in order, each over
the whole text; return the stripped match. -/
def extractPhone (s : List Char) : Option (List Char) :=
  if s.isEmpty then none
  else
    match searchBy matchPhone1 s with
    | some r => some (pyStrip r)
    | none =>
      match searchBy matchPhone2 s with
      | some r => some (pyStrip r)
      | none =>
        match searchBy matchPhone3 s with
        | some r => some (pyStrip r)
        | none => none

/-- Local-part class `[A-Za-z0-9._%+-]` of the email pattern. -/
def isLocalChar (c : Char) : Bool :=
  isAsciiAlnum c || c = '.' || c = '_' || c = '%' || c = '+' || c = '-'

/-- Domain class `[A-Za-z0-9.-]`. -/
def isDomainChar (c : Char) : Bool := isAsciiAlnum c || c = '.' || c = '-'

/-- Final class `[A-Z|a-z]` — note the literal `'|'` inside the class. -/
def isTldChar (c : Char) : Bool := isAsciiAlpha c || c = '|'

def wordness : Option Char → Bool
  | some c => isPyWordChar c
  | none => false

/-- Regex `\b` between two (optional) adjacent characters. -/
def isBoundary (prev next : Option Char) : Bool := wordness prev != wordness next

/-- Tail of the email pattern after `'@'`: `[A-Za-z0-9.-]+\.[A-Z|a-z]{2,}\b`
with the regex backtracking order (longest domain, then longest final part,
first combination satisfying `\b` wins).  Returns the consumed length. -/
def emailTailLen (after : List Char) : Option Nat :=
  let run := after.takeWhile isDomainChar
  let ds := ((List.range run.length).map (fun k => run.length - 1 - k)).filter
    (fun d => 1 ≤ d ∧ after.getD d ' ' = '.')
  firstSome (fun d =>
    let trun := (after.drop (d + 1)).takeWhile isTldChar
    let tls := ((List.range (trun.length + 1)).map (fun k => trun.length - k)).filter (2 ≤ ·)
    firstSome (fun tl =>
      if isBoundary (trun.get? (tl - 1)) ((after.drop (d + 1)).get? tl)
      then some (d + 1 + tl) else none) tls) ds

/-- Email match length at the current position (`prev` is the character
before it, for `\b`): `\b[A-Za-z0-9._%+-]+@` then the domain tail. -/
def matchEmailAt (prev : Option Char) (l : List Char) : Option Nat :=
  let loc := l.takeWhile isLocalChar
  if loc.isEmpty then none
  else if ¬isBoundary prev l.head? then none
  else
    match l.drop loc.length with
    | '@' :: after => (emailTailLen after).map (fun n => loc.length + 1 + n)
    | _ => none

def searchEmailAux (prev : Option Char) : List Char → Option (List Char)
  | [] => none
  | c :: rest =>
    match matchEmailAt prev (c :: rest) with
    | some n => some ((c :: rest).take n)
    | none => searchEmailAux (some c) rest

/-- Embeds `helpers.extract_email`. -/
def extractEmail (s : List Char) : Option (List Char) :=
  if s.isEmpty then none else searchEmailAux none s

/-- Embeds `DataCleaner._clean_contacts` on an actual string:
`phone or email or contacts[:50]`. -/
def cleanContactsStr (s : List Char) : List Char :=
  if s.isEmpty then []
  else
    let contacts := cleanText s
    match extractPhone contacts with
    | some p => p
    | none =>
      match extractEmail contacts with
      | some e => e
      | none => contacts.take 50

def cleanContactsE : Value → Except PyErr (List Char)
  | .vstr s => .ok (cleanContactsStr s)
  | v => if v.falsy then .ok [] else .error .typeError

/-! ## `DataCleaner._clean_url` -/

def isUrlHostChar (c : Char) : Bool := isAsciiAlnum c || c = '.' || c = '-'

/-- One domain label `[A-Z0-9](?:[A-Z0-9-]{0,61}[A-Z0-9])?` (IGNORECASE). -/
def validLabel (l : List Char) : Bool :=
  ¬l.isEmpty ∧ l.length ≤ 63 ∧ l.all (fun c => isAsciiAlnum c || c = '-') ∧
    isAsciiAlnum (l.getD 0 ' ') ∧ isAsciiAlnum (l.getD (l.length - 1) ' ')

/-- TLD `[A-Z]{2,6}` (IGNORECASE). -/
def validTld (l : List Char) : Bool := 2 ≤ l.length ∧ l.length ≤ 6 ∧ l.all isAsciiAlpha

/-- Host alternative `(?:LABEL\.)+[A-Z]{2,6}\.?` checked against the whole
host segment (the host segment is the maximal run of `[A-Za-z0-9.-]`, which
the regex must consume entirely since what follows must be `:`/`/`/`?`/end,
none of which is a host character). -/
def validDomain (host : List Char) : Bool :=
  let parts := splitOnDot host
  let core := if parts.getLast? = some [] then parts.dropLast else parts
  2 ≤ core.length ∧ core.dropLast.all validLabel ∧ validTld (core.getLastD [])

/-- IP alternative `\d{1,3}\.\d{1,3}\.\d{1,3}\.\d{1,3}`. -/
def validIp (host : List Char) : Bool :=
  let parts := splitOnDot host
  parts.length = 4 ∧ parts.all (fun p => 1 ≤ p.length ∧ p.length ≤ 3 ∧ p.all isPyDigit)

def validHost (host : List Char) : Bool :=
  validDomain host || pyLower host = chars "localhost" || validIp host

/-- Embeds `_clean_url`'s anchored URL regex
`^https?://(domain|localhost|ip)(?::\d+)?(?:/?|[/?]\S+)$` (IGNORECASE). -/
def matchesUrl (s : List Char) : Bool :=
  match (if startsWith (pyLower s) (chars "https://") then some (s.drop 8)
         else if startsWith (pyLower s) (chars "http://") then some (s.drop 7)
         else none) with
  | none => false
  | some r =>
    let host := r.takeWhile isUrlHostChar
    let rest := r.drop host.length
    if ¬validHost host then false
    else
      match (match rest with
             | ':' :: r2 =>
               let ds := r2.takeWhile isPyDigit
               if ds.isEmpty then none else some (r2.drop ds.length)
             | _ => some rest) with
      | none => false
      | some tail =>
        tail.isEmpty || tail = ['/'] ||
          (match tail with
           | c :: cs => (c = '/' ∨ c = '?') ∧ ¬cs.isEmpty ∧ cs.all (fun x => !isPySpace x)
           | [] => false)

/-- Embeds `DataCleaner._clean_url` on an actual string. -/
def cleanUrlStr (s : List Char) : List Char :=
  if s.isEmpty then []
  else
    let url := pyStrip s
    if matchesUrl url then url else []

def cleanUrlE : Value → Except PyErr (List Char)
  | .vstr s => .ok (cleanUrlStr s)
  | v => if v.falsy then .ok [] else .error .attributeError

/-! ## Records and `DataCleaner.clean_single_company` -/

/-- A raw company record: the field set read by `clean_single_company`
via `company.get(key, default)`; an absent key is represented by its
`get` default (`''` for text fields, `0` for revenue/employees, `2024`
for `revenue_year`), which is observationally identical. -/
structure RawCompany where
  name : Value := .vstr []
  inn : Value := .vstr []
  revenue : Value := .vint 0
  revenue_year : Value := .vint 2024
  segment_tag : Value := .vstr []
  source : Value := .vstr []
  okved_main : Value := .vstr []
  employees : Value := .vint 0
  site : Value := .vstr []
  description : Value := .vstr []
  region : Value := .vstr []
  contacts : Value := .vstr []
  rating_ref : Value := .vstr []
deriving DecidableEq

/-- A cleaned company record, with the exact field set produced by
`DataCleaner.clean_single_company`. -/
structure Company where
  name : List Char
  inn : List Char
  revenue : ℚ
  revenue_year : Int
  segment_tag : List Char
  source : List Char
  okved_main : List Char
  employees : Int
  site : List Char
  description : List Char
  region : List Char
  contacts : List Char
  rating_ref : List Char
deriving DecidableEq, Inhabited, Repr

/-- Embeds `config.min_revenue`: `filters.get("min_revenue", 200000000)`
(`src/config.py`). -/
def minRevenueDefault : ℚ := 200000000

/-- Embeds `DataCleaner._is_valid_company`: name must be non-empty; a positive
revenue below the configured minimum is rejected, a zero revenue is not. -/
def isValidCompany (minRevenue : ℚ) (c : Company) : Bool :=
  if c.name.isEmpty then false
  else if c.revenue > 0 ∧ c.revenue < minRevenue then false
  else true

/-- The `try` body of `DataCleaner.clean_single_company`: field cleaners
run in source order; `.ok none` models the early `return None` branches
(empty name, failed validity gate); `.error` models an uncaught exception
inside the `try`. -/
def cleanSingleE (minRevenue : ℚ) (c : RawCompany) : Except PyErr (Option Company) := do
  let name ← cleanCompanyNameE c.name
  if name.isEmpty then return Option.none
  let inn := cleanInnV c.inn
  let revenue := cleanRevenueV c.revenue
  let revenueYear := cleanRevenueYearV c.revenue_year
  let segmentTag ← cleanSegmentTagE c.segment_tag
  let source ← cleanSourceE c.source
  let okvedMain := cleanOkvedV c.okved_main
  let employees := cleanEmployeesV c.employees
  let site ← cleanUrlE c.site
  let description ← cleanDescriptionE c.description
  let region ← cleanRegionE c.region
  let contacts ← cleanContactsE c.contacts
  let ratingRef ← cleanUrlE c.rating_ref
  let cleaned : Company :=
    ⟨name, inn, revenue, revenueYear, segmentTag, source, okvedMain, employees,
     site, description, region, contacts, ratingRef⟩
  if ¬isValidCompany minRevenue cleaned then return Option.none
  return some cleaned

/-- Embeds `DataCleaner.clean_single_company`: the surrounding
`try ... except Exception: return None`. -/
def cleanSingleCompany (minRevenue : ℚ) (c : RawCompany) : Option Company :=
  match cleanSingleE minRevenue c with
  | .error _ => none
  | .ok r => r

/-- Embeds `DataCleaner.clean_companies_data`: the accumulating loop, appending
each successfully cleaned record. -/
def cleanCompaniesData (minRevenue : ℚ) (companies : List RawCompany) : List Company :=
  companies.foldl (fun acc c =>
    match cleanSingleCompany minRevenue c with
    | some cleaned => acc ++ [cleaned]
    | none => acc) []

/-- Embeds `main.filter_by_revenue`: keep records with `revenue == 0` or
`revenue >= min_revenue`. -/
def filterByRevenue (minRevenue : ℚ) (companies : List Company) : List Company :=
  companies.filter (fun c => decide (c.revenue = 0 ∨ c.revenue ≥ minRevenue))

/-! ## `difflib.SequenceMatcher` (ratio only)

`_are_names_similar` calls `SequenceMatcher(None, a, b).ratio()`.  We model
the matching-blocks computation without junk: `SequenceMatcher(None, ..)`
has no explicit junk, and the `autojunk` popularity heuristic only engages
for `len(b) ≥ 200`, far beyond the normalized company names compared here,
so `b2j` contains every element of `b`. -/

/-- Indices `j` (ascending) with `b[j] = ch`: difflib's `b2j`. -/
def indicesOf (b : List Char) (ch : Char) : List Nat :=
  (b.enum.filter (fun p => p.2 = ch)).map (fun p => p.1)

/-- The running best block of `find_longest_match`. -/
structure FLMBest where
  besti : Nat
  bestj : Nat
  bestsize : Nat
deriving DecidableEq

/-- Lookup in the `j2len` association list (missing key → 0; Python's
`j2len.get(j - 1, 0)` with `j - 1 = -1` also yields 0, covered by the
`j = 0` case at the call site). -/
def lookupLen (m : List (Nat × Nat)) (j : Nat) : Nat := (m.lookup j).getD 0

/-- One outer iteration (`for i in range(alo, ahi)`) of
`find_longest_match`'s dynamic program. -/
def flmStep (b2jf : Char → List Nat) (blo bhi : Nat)
    (st : List (Nat × Nat) × FLMBest) (i : Nat) (ai : Char) :
    List (Nat × Nat) × FLMBest :=
  let js := (b2jf ai).filter (fun j => blo ≤ j ∧ j < bhi)
  js.foldl (fun acc j =>
    let k := (if j = 0 then 0 else lookupLen st.1 (j - 1)) + 1
    let best := if k > acc.2.bestsize then ⟨i + 1 - k, j + 1 - k, k⟩ else acc.2
    (acc.1 ++ [(j, k)], best)) ([], st.2)

/-- The non-junk left extension loop of `find_longest_match` (with no junk
it is a no-op for DP-found maxima, retained for faithfulness; fuel is
`besti`, which strictly decreases). -/
def extendLeft (a b : List Char) (alo blo : Nat) : FLMBest → Nat → FLMBest
  | best, 0 => best
  | best, fuel + 1 =>
    if alo < best.besti ∧ blo < best.bestj ∧
        a.getD (best.besti - 1) ' ' = b.getD (best.bestj - 1) ' ' then
      extendLeft a b alo blo ⟨best.besti - 1, best.bestj - 1, best.bestsize + 1⟩ fuel
    else best

/-- The non-junk right extension loop. -/
def extendRight (a b : List Char) (ahi bhi : Nat) : FLMBest → Nat → FLMBest
  | best, 0 => best
  | best, fuel + 1 =>
    if best.besti + best.bestsize < ahi ∧ best.bestj + best.bestsize < bhi ∧
        a.getD (best.besti + best.bestsize) ' ' = b.getD (best.bestj + best.bestsize) ' ' then
      extendRight a b ahi bhi ⟨best.besti, best.bestj, best.bestsize + 1⟩ fuel
    else best

/-- Embeds `SequenceMatcher.find_longest_match` over `a[alo:ahi]` × `b[blo:bhi]`
(ties resolved to the lowest `i`, then lowest `j`, as in the source;
the junk extension loops are vacuous with no junk set). -/
def findLongestMatch (a b : List Char) (alo ahi blo bhi : Nat) : FLMBest :=
  let core := (List.range' alo (ahi - alo)).foldl
    (fun st i => flmStep (indicesOf b) blo bhi st i (a.getD i ' '))
    ([], ⟨alo, blo, 0⟩)
  let best := core.2
  let best := extendLeft a b alo blo best best.besti
  extendRight a b ahi bhi best (ahi - (best.besti + best.bestsize))

/-- Total matched size of `get_matching_blocks` (the divide-and-conquer
around each longest match); fuel `|a| + |b| + 1` bounds the recursion
depth since each sub-range is strictly smaller. -/
def matchTotalAux (a b : List Char) : Nat → Nat → Nat → Nat → Nat → Nat
  | 0, _, _, _, _ => 0
  | fuel + 1, alo, ahi, blo, bhi =>
    let m := findLongestMatch a b alo ahi blo bhi
    if m.bestsize > 0 then
      matchTotalAux a b fuel alo m.besti blo m.bestj + m.bestsize +
        matchTotalAux a b fuel (m.besti + m.bestsize) ahi (m.bestj + m.bestsize) bhi
    else 0

/-- Embeds `sum(block.size for block in get_matching_blocks())`. -/
def matchTotal (a b : List Char) : Nat :=
  matchTotalAux a b (a.length + b.length + 1) 0 a.length 0 b.length

/-! ## DuplicateHandler -/

/-- Embeds `_normalize_name_for_comparison`'s legal-form substrings, in source
order (replaced anywhere in the lowercased name, then stripped). -/
def legalFormsForComparison : List (List Char) :=
  [chars "ооо", chars "зао", chars "оао", chars "ао", chars "ип", chars "пао",
   chars "общество с ограниченной ответственностью",
   chars "закрытое акционерное общество",
   chars "открытое акционерное общество",
   chars "акционерное общество",
   chars "публичное акционерное общество",
   chars "индивидуальный предприниматель"]

/-- Embeds `re.sub(r'["\'\(\)\[\]«»]', '', name)`'s character class. -/
def isQuoteBracket (c : Char) : Bool :=
  c = '"' || c = '\'' || c = '(' || c = ')' || c = '[' || c = ']' || c = '«' || c = '»'

/-- Embeds `DuplicateHandler._normalize_name_for_comparison`. -/
def normalizeNameForComparison (name : List Char) : List Char :=
  if name.isEmpty then []
  else
    let n := pyLower name
    let n := legalFormsForComparison.foldl (fun n form => pyStrip (replaceAll n form)) n
    let n := n.filter (fun c => !isQuoteBracket c)
    let n := n.map (fun c => if !(isPyWordChar c || isPySpace c) then ' ' else c)
    pyStrip (collapseWs n)

/-- Embeds `DuplicateHandler._are_names_similar` (the `threshold` parameter
defaults to 0.8 and every call site leaves it there).  `ratio() = 2M/T`
and the word-set Jaccard quotient are exact rationals built with `mkRat`
(both denominators are nonzero at their use sites), compared exactly —
Python compares the same values as floats. -/
def areNamesSimilar (name1 name2 : List Char) (threshold : ℚ := mkRat 8 10) : Bool :=
  if name1.isEmpty ∨ name2.isEmpty then false
  else if name1 = name2 then true
  else if mkRat (2 * (matchTotal name1 name2 : Int)) (name1.length + name2.length)
      ≥ threshold then true
  else if name1.length > 5 ∧ name2.length > 5 ∧
      (containsSub name2 name1 ∨ containsSub name1 name2) then true
  else
    let words1 := (pySplit name1).dedup
    let words2 := (pySplit name2).dedup
    if ¬words1.isEmpty ∧ ¬words2.isEmpty then
      let inter := words1.filter (fun w => w ∈ words2)
      let union := words1 ++ words2.filter (fun w => w ∉ words1)
      if mkRat inter.length union.length ≥ mkRat 6 10 then true else false
    else false

/-- Append a record to the group of its key, or open a new group at the
end (Python dict insertion-order semantics of `_group_by_inn`). -/
def addToGroups (gs : List (List Char × List Company)) (key : List Char) (c : Company) :
    List (List Char × List Company) :=
  match gs with
  | [] => [(key, [c])]
  | (k, g) :: rest =>
    if k = key then (k, g ++ [c]) :: rest else (k, g) :: addToGroups rest key c

/-- The loop body of `_group_by_inn`: key the record by its stripped inn,
skipping it when the key is empty. -/
def innStep (gs : List (List Char × List Company)) (c : Company) :
    List (List Char × List Company) :=
  let inn := pyStrip c.inn
  if inn.isEmpty then gs else addToGroups gs inn c

/-- Embeds `DuplicateHandler._group_by_inn`: group by `company.get('inn','').strip()`,
skipping records whose stripped key is empty. -/
def groupByInn (companies : List Company) : List (List Char × List Company) :=
  companies.foldl innStep []

/-- The member list of the group keyed `k` (empty if absent); a
specification device for reasoning about `groupByInn`. -/
def groupLookup (gs : List (List Char × List Company)) (k : List Char) : List Company :=
  ((gs.find? (fun g => g.1 = k)).map Prod.snd).getD []

/-- Embeds `DuplicateHandler._group_by_similarity`: greedy anchor-based
clustering.  The Python index/visited-set loop is equivalent to this
partition recursion: the first unprocessed record anchors a group
containing every later unprocessed record similar to the anchor's
normalized name; the rest recurse. -/
def groupBySimilarityAux : Nat → List Company → List (List Company)
  | 0, _ => []
  | _ + 1, [] => []
  | fuel + 1, c :: rest =>
    let name1 := normalizeNameForComparison c.name
    (c :: rest.filter (fun c2 => areNamesSimilar name1 (normalizeNameForComparison c2.name))) ::
      groupBySimilarityAux fuel
        (rest.filter (fun c2 => !areNamesSimilar name1 (normalizeNameForComparison c2.name)))

def groupBySimilarity (companies : List Company) : List (List Company) :=
  groupBySimilarityAux companies.length companies

/-- Embeds `count_filled_fields`'s per-field test `value and str(value).strip()`. -/
def filledStr (s : List Char) : Nat := if (pyStrip s).isEmpty then 0 else 1

def filledQ (q : ℚ) : Nat := if q = 0 then 0 else 1

def filledZ (n : Int) : Nat := if n = 0 then 0 else 1

/-- Embeds `_select_base_company.count_filled_fields` over the 13 record fields. -/
def countFilledFields (c : Company) : Nat :=
  filledStr c.name + filledStr c.inn + filledQ c.revenue + filledZ c.revenue_year +
    filledStr c.segment_tag + filledStr c.source + filledStr c.okved_main +
    filledZ c.employees + filledStr c.site + filledStr c.description +
    filledStr c.region + filledStr c.contacts + filledStr c.rating_ref

/-- Embeds `_select_base_company`'s `source_priority` table (unlisted → 0). -/
def sourcePriorityScore (s : List Char) : Nat :=
  if s = chars "fns_open_data" then 5
  else if s = chars "marketing_tech" then 4
  else if s = chars "rrar_2025" then 3
  else if s = chars "rusprofile" then 2
  else if s = chars "list_org" then 1
  else 0

/-- Embeds `_select_base_company.get_company_score`. -/
def getCompanyScore (c : Company) : Nat :=
  countFilledFields c + sourcePriorityScore c.source +
    (if c.revenue > 0 then 10 else 0) + (if c.inn.isEmpty then 0 else 5)

/-- Embeds `_select_base_company`: `max(group, key=get_company_score)` — the
first element of maximal score.  Python raises on an empty group; groups
are never empty here, and we return a default record in that vacuous case. -/
def selectBase (group : List Company) : Company :=
  match group with
  | [] => default
  | c :: rest =>
    rest.foldl (fun best x => if getCompanyScore x > getCompanyScore best then x else best) c

/-- The numeric branch of `_merge_two_companies` (`revenue`, `employees`):
a falsy (zero) base takes the incoming value outright; otherwise a positive
incoming value strictly greater than the base replaces it. -/
def mergeNumQ (b a : ℚ) : ℚ := if b = 0 then a else if a > 0 ∧ a > b then a else b

def mergeNumZ (b a : Int) : Int := if b = 0 then a else if a > 0 ∧ a > b then a else b

/-- The generic string branch: a falsy or whitespace-only base takes the
incoming value (`not base_value or not base_value.strip()`), else keeps. -/
def mergeStr (b a : List Char) : List Char := if (pyStrip b).isEmpty then a else b

/-- The `description` branch: after the empty-base test, replace only by a
truthy, different, strictly longer incoming description. -/
def mergeDescr (b a : List Char) : List Char :=
  if (pyStrip b).isEmpty then a
  else if ¬a.isEmpty ∧ a ≠ b ∧ a.length > b.length then a
  else b

/-- Embeds `DuplicateHandler._merge_two_companies`, unrolled over the (shared)
field set of cleaned records; `revenue_year` falls into the generic
"take incoming iff base falsy" case for non-string values. -/
def mergeTwoCompanies (base addl : Company) : Company where
  name := mergeStr base.name addl.name
  inn := mergeStr base.inn addl.inn
  revenue := mergeNumQ base.revenue addl.revenue
  revenue_year := if base.revenue_year = 0 then addl.revenue_year else base.revenue_year
  segment_tag := mergeStr base.segment_tag addl.segment_tag
  source := mergeStr base.source addl.source
  okved_main := mergeStr base.okved_main addl.okved_main
  employees := mergeNumZ base.employees addl.employees
  site := mergeStr base.site addl.site
  description := mergeDescr base.description addl.description
  region := mergeStr base.region addl.region
  contacts := mergeStr base.contacts addl.contacts
  rating_ref := mergeStr base.rating_ref addl.rating_ref

/-- The source-collection loop of `_merge_company_group`: distinct truthy
sources in first-encounter order. -/
def collectSources (group : List Company) : List (List Char) :=
  group.foldl (fun sources c =>
    if ¬c.source.isEmpty ∧ c.source ∉ sources then sources ++ [c.source] else sources) []

/-- Embeds `DuplicateHandler._merge_company_group`.  A singleton group is returned
as-is; otherwise every member not (structurally) equal to the selected base
is folded in left-to-right, and the source field is overwritten with the
joined distinct sources. -/
def mergeCompanyGroup (group : List Company) : Company :=
  match group with
  | [] => default
  | [c] => c
  | g =>
    let base := selectBase g
    let merged := (g.filter (fun x => decide (x ≠ base))).foldl mergeTwoCompanies base
    let sources := collectSources g
    { merged with
      source := if sources.isEmpty then merged.source
                else List.intercalate (chars ", ") sources }

/-- Embeds `DuplicateHandler.remove_duplicates`: inn groups (skipping empty keys)
then fuzzy name groups over the records with falsy inn. -/
def removeDuplicates (companies : List Company) : List Company :=
  let innGroups := groupByInn companies
  let noInnCompanies := companies.filter (fun c => c.inn.isEmpty)
  let nameGroups := groupBySimilarity noInnCompanies
  (innGroups.filter (fun g => !g.1.isEmpty)).map (fun g => mergeCompanyGroup g.2) ++
    nameGroups.map mergeCompanyGroup

/-! ## Lemmas: character classes and stripping -/

theorem dropTagCont_length : ∀ l l', dropTagCont l = some l' → l'.length < l.length := by
  intro l
  induction l with
  | nil => intro l' h; simp [dropTagCont] at h
  | cons c rest ih =>
    intro l' h
    simp only [dropTagCont] at h
    split at h
    · cases h; simp
    · exact Nat.lt_trans (ih l' h) (Nat.lt_succ_self _)

theorem dropTag_length : ∀ l l', dropTag l = some l' → l'.length < l.length := by
  intro l l' h
  cases l with
  | nil => simp [dropTag] at h
  | cons c rest =>
    simp only [dropTag] at h
    split at h
    · cases h
    · exact Nat.lt_trans (dropTagCont_length rest l' h) (Nat.lt_succ_self _)


theorem isPyDigit_not_space {c : Char} (h : isPyDigit c = true) : isPySpace c = false := by
  simp only [isPyDigit, isPySpace] at *
  split at h
  · split
    · omega
    · rfl
  · exact absurd h (by simp)

theorem isPySpace_not_digit {c : Char} (h : isPySpace c = true) : isPyDigit c = false := by
  by_cases hd : isPyDigit c = true
  · rw [isPyDigit_not_space hd] at h; cases h
  · simpa using hd

theorem dropWhile_space_of_digits {l : List Char} (h : ∀ c ∈ l, isPyDigit c = true) :
    l.dropWhile isPySpace = l := by
  cases l with
  | nil => rfl
  | cons c r =>
    refine List.dropWhile_cons_of_neg ?_
    rw [isPyDigit_not_space (h c (List.mem_cons_self c r))]
    simp

theorem pyStrip_of_digits {l : List Char} (h : ∀ c ∈ l, isPyDigit c = true) :
    pyStrip l = l := by
  unfold pyStrip
  rw [dropWhile_space_of_digits h,
      dropWhile_space_of_digits (fun c hc => h c (List.mem_reverse.mp hc)),
      List.reverse_reverse]

theorem filter_digit_dropWhile_space (l : List Char) :
    (l.dropWhile isPySpace).filter isPyDigit = l.filter isPyDigit := by
  induction l with
  | nil => rfl
  | cons c r ih =>
    by_cases h : isPySpace c = true
    · rw [List.dropWhile_cons_of_pos h, ih, List.filter_cons_of_neg]
      simp [isPySpace_not_digit h]
    · rw [List.dropWhile_cons_of_neg (by simpa using h)]

theorem filter_digit_pyStrip (l : List Char) :
    (pyStrip l).filter isPyDigit = l.filter isPyDigit := by
  unfold pyStrip
  rw [List.filter_reverse, filter_digit_dropWhile_space, List.filter_reverse,
      List.reverse_reverse, filter_digit_dropWhile_space]

/-- Embeds `cleanInn` computes the digit subsequence and keeps it iff its length
is 10 or 12. -/
theorem cleanInn_eq (s : List Char) :
    cleanInn s =
      if (s.filter isPyDigit).length = 10 ∨ (s.filter isPyDigit).length = 12
      then s.filter isPyDigit else [] := by
  unfold cleanInn cleanInnV Value.falsy pyStr
  cases s with
  | nil => simp
  | cons c r =>
    simp only [List.isEmpty_cons, if_false, Bool.false_eq_true]
    rw [filter_digit_pyStrip]

/-! ## Claim theorems -/

/-- C8: tax-id cleaning is idempotent; an already-clean 10- or 12-digit
string is returned unchanged; any string reduces to just its digits, kept
iff their count is exactly 10 or 12, else the empty string. -/
theorem inn_cleaning_idempotent (s : List Char) :
    cleanInn (cleanInn s) = cleanInn s ∧
    ((∀ c ∈ s, isPyDigit c = true) → (s.length = 10 ∨ s.length = 12) → cleanInn s = s) ∧
    cleanInn s =
      (if (s.filter isPyDigit).length = 10 ∨ (s.filter isPyDigit).length = 12
       then s.filter isPyDigit else []) := by
  refine ⟨?_, ?_, cleanInn_eq s⟩
  · rw [cleanInn_eq s]
    split
    · have hself : (s.filter isPyDigit).filter isPyDigit = s.filter isPyDigit :=
        List.filter_eq_self.mpr (fun a ha => List.of_mem_filter ha)
      rw [cleanInn_eq, hself]
      simp only [*, if_pos]
    · rw [cleanInn_eq]
      simp
  · intro hdig hlen
    have hself : s.filter isPyDigit = s := List.filter_eq_self.mpr hdig
    rw [cleanInn_eq, hself, if_pos hlen]

/-- C8 witness: a concrete 10-digit tax id is a fixed point, and a noisy
variant reduces to its digits. -/
theorem inn_cleaning_idempotent_witness :
    cleanInn (chars "7707083893") = chars "7707083893" ∧
    cleanInn (cleanInn (chars " 77-07083893 ")) = cleanInn (chars " 77-07083893 ") := by
  constructor
  · exact (inn_cleaning_idempotent (chars "7707083893")).2.1 (by decide) (by decide)
  · exact (inn_cleaning_idempotent (chars " 77-07083893 ")).1

/-- C5: both revenue gates are asymmetric about zero: a zero revenue never
fails the minimum-revenue test (the normalizer's validity gate accepts any
zero-revenue record with a non-empty name, and the final gate keeps it),
while a positive revenue strictly below the minimum fails both gates. -/
theorem revenue_gates_zero_asymmetry (minRevenue : ℚ) (c d : Company)
    (hc0 : c.revenue = 0) (hcn : c.name ≠ []) (hd0 : 0 < d.revenue)
    (hdm : d.revenue < minRevenue) :
    isValidCompany minRevenue c = true ∧ filterByRevenue minRevenue [c] = [c] ∧
    isValidCompany minRevenue d = false ∧ filterByRevenue minRevenue [d] = [] := by
  have hdne : d.revenue ≠ 0 := ne_of_gt hd0
  refine ⟨?_, ?_, ?_, ?_⟩
  · simp [isValidCompany, hc0, List.isEmpty_iff, hcn]
  · simp [filterByRevenue, hc0]
  · by_cases hn : d.name.isEmpty <;> simp [isValidCompany, hn, hd0, hdm]
  · simp [filterByRevenue, hdne, not_le.mpr hdm]

/-- C5 witness: with the configured minimum 200000000, a zero-revenue
record passes both gates and a revenue-1 record passes neither. -/
theorem revenue_gates_zero_asymmetry_witness :
    isValidCompany 200000000
        ⟨chars "A", [], 0, 2024, [], [], [], 0, [], [], [], [], []⟩ = true ∧
    filterByRevenue 200000000
        [⟨chars "A", [], 0, 2024, [], [], [], 0, [], [], [], [], []⟩] =
      [⟨chars "A", [], 0, 2024, [], [], [], 0, [], [], [], [], []⟩] ∧
    isValidCompany 200000000
        ⟨chars "B", [], 1, 2024, [], [], [], 0, [], [], [], [], []⟩ = false ∧
    filterByRevenue 200000000
        [⟨chars "B", [], 1, 2024, [], [], [], 0, [], [], [], [], []⟩] = [] :=
  revenue_gates_zero_asymmetry 200000000
    ⟨chars "A", [], 0, 2024, [], [], [], 0, [], [], [], [], []⟩
    ⟨chars "B", [], 1, 2024, [], [], [], 0, [], [], [], [], []⟩
    rfl (by decide) (by decide) (by decide)

set_option maxRecDepth 8000 in
/-- C6 counterexample: the cleaned description of 301 `'a'`s has length
303, so the claimed 300-character bound on the description field is false. -/
theorem description_bound_cx :
    ¬((cleanDescriptionStr (List.replicate 301 'a')).length ≤ 300) := by decide

/-- C6 (amended): the description field is at most 303 characters: a
cleaned text longer than 300 characters is truncated to its first 300
characters with the three-character ellipsis marker appended. -/
theorem description_truncated_to_303 (s : List Char) :
    (cleanDescriptionStr s).length ≤ 303 ∧
    ((cleanText s).length > 300 →
      cleanDescriptionStr s = (cleanText s).take 300 ++ chars "...") := by
  unfold cleanDescriptionStr
  by_cases hs : s.isEmpty
  · have hnil : s = [] := List.isEmpty_iff.mp hs
    subst hnil
    exact ⟨by simp, fun h => absurd h (by decide)⟩
  · simp only [hs, Bool.false_eq_true, if_false]
    by_cases hlen : (cleanText s).length > 300
    · refine ⟨?_, fun _ => by simp [hlen]⟩
      have hdots : (chars "...").length = 3 := rfl
      simp only [hlen, if_true, List.length_append, List.length_take, hdots]
      omega
    · refine ⟨?_, fun h => absurd h hlen⟩
      simp only [hlen, if_false]
      omega

set_option maxRecDepth 8000 in
/-- C6 amended-claim witness at a concrete long input. -/
theorem description_truncated_to_303_witness :
    (cleanText (List.replicate 301 'a')).length > 300 ∧
    cleanDescriptionStr (List.replicate 301 'a') =
      (cleanText (List.replicate 301 'a')).take 300 ++ chars "..." :=
  ⟨by decide, (description_truncated_to_303 (List.replicate 301 'a')).2 (by decide)⟩

/-- C7 counterexample: the empty raw segment value yields the empty
string, which is neither in the six-value enum nor the default `"BTL"`,
so the claim that every input normalizes into the enum is false. -/
theorem segment_tag_empty_cx :
    cleanSegmentTagStr [] = [] ∧ cleanSegmentTagStr [] ∉ validTags ∧
    cleanSegmentTagStr [] ≠ chars "BTL" := by decide

/-- C7 (amended): for every non-empty raw segment value the result is one
of the six enum values; the uppercased input is tested for containment in
declared order with the first match winning, and a non-empty input
matching none of them defaults to `"BTL"` (the empty input instead yields
the empty string). -/
theorem segment_tag_enum_or_default (s : List Char) (hs : s ≠ []) :
    cleanSegmentTagStr s ∈ validTags ∧
    ((∀ t ∈ validTags, containsSub (pyUpper s) t = false) →
      cleanSegmentTagStr s = chars "BTL") ∧
    (∀ l1 t l2, validTags = l1 ++ t :: l2 → containsSub (pyUpper s) t = true →
      (∀ t' ∈ l1, containsSub (pyUpper s) t' = false) → cleanSegmentTagStr s = t) := by
  have hne : s.isEmpty = false := by simpa [List.isEmpty_iff] using hs
  refine ⟨?_, ?_, ?_⟩
  · unfold cleanSegmentTagStr
    rw [hne]
    simp only [Bool.false_eq_true, if_false]
    cases h : validTags.find? (fun t => containsSub (pyUpper s) t) with
    | some t => exact List.mem_of_find?_eq_some h
    | none => decide
  · intro hall
    unfold cleanSegmentTagStr
    rw [hne]
    simp only [Bool.false_eq_true, if_false]
    rw [List.find?_eq_none.mpr (fun t ht => by simp [hall t ht])]
  · intro l1 t l2 hsplit ht hl1
    unfold cleanSegmentTagStr
    rw [hne]
    simp only [Bool.false_eq_true, if_false]
    rw [hsplit, List.find?_append, List.find?_eq_none.mpr (fun t' ht' => by simp [hl1 t' ht']),
        Option.none_or, List.find?_cons_of_pos _ ht]

/-- C7 amended-claim witness: a free-text value containing `EVENT`, and a
non-matching value defaulting to `BTL`. -/
theorem segment_tag_enum_or_default_witness :
    cleanSegmentTagStr (chars "we do events") ∈ validTags ∧
    cleanSegmentTagStr (chars "nothing here") = chars "BTL" :=
  ⟨(segment_tag_enum_or_default (chars "we do events") (by decide)).1,
   (segment_tag_enum_or_default (chars "nothing here") (by decide)).2.1 (by decide)⟩

/-- C1: the revenue-unit multiplier branches of `parse_revenue` are dead
code — `original_str` is bound to the already-cleaned string from which
`re.sub(r'[^\d,.\s]', '', ...)` deleted every letter, so no magnitude word
is ever found.  `"500 млн"` parses to 500.0 (not 500000000), `"1.2 млрд"`
to 1.2 (not 1200000000); only the pass-through of a plain numeric input
behaves as claimed. -/
theorem parse_revenue_units_dead :
    parseRevenue (chars "500 млн") = some 500 ∧
    cleanRevenueV (.vstr (chars "500 млн")) = 500 ∧
    (500 : ℚ) ≠ 500000000 ∧
    parseRevenue (chars "1.2 млрд") = some (mkRat 12 10) ∧
    mkRat 12 10 ≠ 1200000000 ∧
    cleanRevenueV (.vint 500000000) = 500000000 := by
  refine ⟨by decide, by decide, by decide, by decide, by decide, by decide⟩

/-- The accumulating loop of `clean_companies_data` is `filterMap`. -/
theorem cleanCompaniesData_eq_filterMap (m : ℚ) (l : List RawCompany) :
    cleanCompaniesData m l = l.filterMap (cleanSingleCompany m) := by
  unfold cleanCompaniesData
  suffices h : ∀ (l : List RawCompany) (acc : List Company),
      l.foldl (fun acc c =>
        match cleanSingleCompany m c with
        | some cleaned => acc ++ [cleaned]
        | none => acc) acc = acc ++ l.filterMap (cleanSingleCompany m) by
    simpa using h l []
  intro l
  induction l with
  | nil => simp
  | cons c r ih =>
    intro acc
    simp only [List.foldl_cons, List.filterMap_cons]
    cases h : cleanSingleCompany m c with
    | none => simp [ih]
    | some x => simp [ih]

/-- C9: batch cleaning always returns a list containing exactly the
records whose normalization succeeded, in input order; an exception inside
a single record's normalization is caught there, yielding `none`, so the
record is dropped and the batch continues (the output never exceeds the
input in length, and no error escapes `clean_companies_data`). -/
theorem batch_cleaning_total (m : ℚ) (l : List RawCompany) :
    cleanCompaniesData m l = l.filterMap (cleanSingleCompany m) ∧
    (∀ c ∈ l, ∀ e, cleanSingleE m c = .error e → cleanSingleCompany m c = none) ∧
    (cleanCompaniesData m l).length ≤ l.length := by
  refine ⟨cleanCompaniesData_eq_filterMap m l, ?_, ?_⟩
  · intro c _ e he
    unfold cleanSingleCompany
    rw [he]
  · rw [cleanCompaniesData_eq_filterMap m l]
    exact List.length_filterMap_le _ _

/-- Embeds `mergeCompanyGroup` on a two-element group of distinct records: the
higher-scoring record (ties to the first) is the base, the other is folded
in, and the source field is overwritten with the collected sources. -/
theorem mergeCompanyGroup_two (a b : Company) (hab : a ≠ b) :
    mergeCompanyGroup [a, b] =
      { (if getCompanyScore b > getCompanyScore a then mergeTwoCompanies b a
         else mergeTwoCompanies a b) with
        source :=
          if (collectSources [a, b]).isEmpty then
            (if getCompanyScore b > getCompanyScore a then mergeTwoCompanies b a
             else mergeTwoCompanies a b).source
          else List.intercalate (chars ", ") (collectSources [a, b]) } := by
  have hba : b ≠ a := Ne.symm hab
  by_cases hsc : getCompanyScore b > getCompanyScore a <;>
    simp [mergeCompanyGroup, selectBase, hsc, hab, hba]

/-- C2: two records sharing one non-empty (digit-string) tax id — one with
revenue 0, one with revenue 500000000 — merge into exactly one output
record with revenue 500000000 (= the larger of the two), whose source is
the `", "`-join of the records' distinct sources in first-encounter order;
and in general the merged revenue of two records is the larger of two
non-negative revenues. -/
theorem resolver_merges_same_inn_pair (r1 r2 : Company)
    (hinn : r1.inn = r2.inn) (hne : r1.inn ≠ [])
    (hdig : ∀ ch ∈ r1.inn, isPyDigit ch = true)
    (hrev1 : r1.revenue = 0) (hrev2 : r2.revenue = 500000000)
    (hs1 : r1.source ≠ []) (hs2 : r2.source ≠ []) :
    removeDuplicates [r1, r2] = [mergeCompanyGroup [r1, r2]] ∧
    (mergeCompanyGroup [r1, r2]).revenue = 500000000 ∧
    (mergeCompanyGroup [r1, r2]).revenue = max r1.revenue r2.revenue ∧
    (mergeCompanyGroup [r1, r2]).source =
      (if r2.source = r1.source then r1.source
       else r1.source ++ chars ", " ++ r2.source) ∧
    (∀ b a : Company, 0 ≤ b.revenue → 0 ≤ a.revenue →
      (mergeTwoCompanies b a).revenue = max b.revenue a.revenue) := by
  have hr12 : r1 ≠ r2 := by
    intro h
    rw [h, hrev2] at hrev1
    exact absurd hrev1 (by decide)
  have hstrip1 : pyStrip r1.inn = r1.inn := pyStrip_of_digits hdig
  have hdig2 : ∀ ch ∈ r2.inn, isPyDigit ch = true := by rw [← hinn]; exact hdig
  have hstrip2 : pyStrip r2.inn = r2.inn := pyStrip_of_digits hdig2
  have hie1 : r1.inn.isEmpty = false := by simpa [List.isEmpty_iff] using hne
  have hie2 : r2.inn.isEmpty = false := by rw [← hinn]; exact hie1
  have hgbi : groupByInn [r1, r2] = [(r1.inn, [r1, r2])] := by
    simp [groupByInn, innStep, hstrip1, hstrip2, ← hinn, hne, addToGroups]
  have hnoinn : List.filter (fun c => c.inn.isEmpty) [r1, r2] = [] := by
    simp [hie1, hie2]
  have hrd : removeDuplicates [r1, r2] = [mergeCompanyGroup [r1, r2]] := by
    simp [removeDuplicates, hgbi, hnoinn, groupBySimilarity, groupBySimilarityAux, hie1]
  have hsrc1 : r1.source.isEmpty = false := by simpa [List.isEmpty_iff] using hs1
  have hsrc2 : r2.source.isEmpty = false := by simpa [List.isEmpty_iff] using hs2
  have hcs : collectSources [r1, r2] =
      if r2.source = r1.source then [r1.source] else [r1.source, r2.source] := by
    by_cases hss : r2.source = r1.source <;>
      simp [collectSources, hs1, hs2, hss]
  have hnumq : ∀ b a : Company, 0 ≤ b.revenue → 0 ≤ a.revenue →
      (mergeTwoCompanies b a).revenue = max b.revenue a.revenue := by
    intro b a hb ha
    show mergeNumQ b.revenue a.revenue = max b.revenue a.revenue
    unfold mergeNumQ
    by_cases hb0 : b.revenue = 0
    · rw [if_pos hb0, hb0, max_eq_right ha]
    · rw [if_neg hb0]
      by_cases hgt : a.revenue > 0 ∧ a.revenue > b.revenue
      · rw [if_pos hgt, max_eq_right (le_of_lt hgt.2)]
      · rw [if_neg hgt]
        push_neg at hgt
        by_cases hap : 0 < a.revenue
        · exact (max_eq_left (hgt hap)).symm
        · have ha0 : a.revenue = 0 := le_antisymm (not_lt.mp hap) ha
          rw [ha0, max_eq_left hb]
  have hmrev : (mergeCompanyGroup [r1, r2]).revenue = 500000000 := by
    rw [mergeCompanyGroup_two r1 r2 hr12]
    by_cases hsc : getCompanyScore r2 > getCompanyScore r1 <;>
      simp [hsc, mergeTwoCompanies, mergeNumQ, hrev1, hrev2]
  refine ⟨hrd, hmrev, ?_, ?_, hnumq⟩
  · rw [hmrev, hrev1, hrev2]
    decide
  · rw [mergeCompanyGroup_two r1 r2 hr12, hcs]
    by_cases hss : r2.source = r1.source
    · simp [hss, List.intercalate, List.intersperse, List.isEmpty_iff, hs1]
    · simp [hss, List.intercalate, List.intersperse, List.isEmpty_iff, hs1]

/-- C2 witness: two concrete records with tax id `7707083893`, revenues 0
and 500000000, sources `rrar_2025` and `fns_open_data`. -/
theorem resolver_merges_same_inn_pair_witness :
    removeDuplicates
        [⟨chars "LBL Group", chars "7707083893", 0, 2024, [], chars "rrar_2025",
          [], 0, [], [], [], [], []⟩,
         ⟨chars "LBL", chars "7707083893", 500000000, 2024, [], chars "fns_open_data",
          [], 0, [], [], [], [], []⟩] =
      [mergeCompanyGroup
        [⟨chars "LBL Group", chars "7707083893", 0, 2024, [], chars "rrar_2025",
          [], 0, [], [], [], [], []⟩,
         ⟨chars "LBL", chars "7707083893", 500000000, 2024, [], chars "fns_open_data",
          [], 0, [], [], [], [], []⟩]] ∧
    (mergeCompanyGroup
        [⟨chars "LBL Group", chars "7707083893", 0, 2024, [], chars "rrar_2025",
          [], 0, [], [], [], [], []⟩,
         ⟨chars "LBL", chars "7707083893", 500000000, 2024, [], chars "fns_open_data",
          [], 0, [], [], [], [], []⟩]).revenue = 500000000 ∧
    (mergeCompanyGroup
        [⟨chars "LBL Group", chars "7707083893", 0, 2024, [], chars "rrar_2025",
          [], 0, [], [], [], [], []⟩,
         ⟨chars "LBL", chars "7707083893", 500000000, 2024, [], chars "fns_open_data",
          [], 0, [], [], [], [], []⟩]).source =
      chars "rrar_2025" ++ chars ", " ++ chars "fns_open_data" := by
  have h := resolver_merges_same_inn_pair
    ⟨chars "LBL Group", chars "7707083893", 0, 2024, [], chars "rrar_2025",
      [], 0, [], [], [], [], []⟩
    ⟨chars "LBL", chars "7707083893", 500000000, 2024, [], chars "fns_open_data",
      [], 0, [], [], [], [], []⟩
    rfl (by decide) (by decide) rfl rfl (by decide) (by decide)
  refine ⟨h.1, h.2.1, ?_⟩
  rw [h.2.2.2.1]
  decide

/-- C4: fuzzy grouping is greedy, anchor-based and order-sensitive: with
three tax-id-less records `[A, B, C]` where B's normalized name is similar
to A's, C's is similar to B's but not to A's, the resolver groups A with B
and leaves C alone — candidates are compared only against the group's
anchor, never against later-added members. -/
theorem fuzzy_grouping_anchor_based (A B C : Company)
    (hA : A.inn = []) (hB : B.inn = []) (hC : C.inn = [])
    (hAB : areNamesSimilar (normalizeNameForComparison A.name)
      (normalizeNameForComparison B.name) = true)
    (hBC : areNamesSimilar (normalizeNameForComparison B.name)
      (normalizeNameForComparison C.name) = true)
    (hAC : areNamesSimilar (normalizeNameForComparison A.name)
      (normalizeNameForComparison C.name) = false) :
    groupBySimilarity [A, B, C] = [[A, B], [C]] ∧
    removeDuplicates [A, B, C] = [mergeCompanyGroup [A, B], C] := by
  have hg : groupBySimilarity [A, B, C] = [[A, B], [C]] := by
    simp [groupBySimilarity, groupBySimilarityAux, hAB, hAC]
  refine ⟨hg, ?_⟩
  have hgbi : groupByInn [A, B, C] = [] := by
    simp [groupByInn, innStep, hA, hB, hC, pyStrip]
  have hnoinn : List.filter (fun c => c.inn.isEmpty) [A, B, C] = [A, B, C] := by
    simp [hA, hB, hC]
  simp [removeDuplicates, hgbi, hnoinn, hg, mergeCompanyGroup]

set_option maxRecDepth 100000 in
/-- C4 witness: names `"aaaaaa"`, `"aaaaaacccccc"`, `"cccccc"` — the first
is a substring of the second and the third is a substring of the second
(similar), but the first and third share nothing (not similar). -/
theorem fuzzy_grouping_anchor_based_witness :
    groupBySimilarity
        [⟨chars "aaaaaa", [], 0, 2024, [], [], [], 0, [], [], [], [], []⟩,
         ⟨chars "aaaaaacccccc", [], 0, 2024, [], [], [], 0, [], [], [], [], []⟩,
         ⟨chars "cccccc", [], 0, 2024, [], [], [], 0, [], [], [], [], []⟩] =
      [[⟨chars "aaaaaa", [], 0, 2024, [], [], [], 0, [], [], [], [], []⟩,
        ⟨chars "aaaaaacccccc", [], 0, 2024, [], [], [], 0, [], [], [], [], []⟩],
       [⟨chars "cccccc", [], 0, 2024, [], [], [], 0, [], [], [], [], []⟩]] :=
  (fuzzy_grouping_anchor_based
    ⟨chars "aaaaaa", [], 0, 2024, [], [], [], 0, [], [], [], [], []⟩
    ⟨chars "aaaaaacccccc", [], 0, 2024, [], [], [], 0, [], [], [], [], []⟩
    ⟨chars "cccccc", [], 0, 2024, [], [], [], 0, [], [], [], [], []⟩
    rfl rfl rfl (by decide) (by decide) (by decide)).1

/-- C10 counterexample: the output-length comparison of the claim fails —
for the two-record input `[X, W]` where `W` has a whitespace-only inn and
a name similar to `X`'s, the whitespace variant and the empty-inn variant
both produce one record, so the whitespace variant's output is NOT
strictly smaller. -/
theorem whitespace_inn_cx :
    (removeDuplicates
        [⟨chars "aaaaaa", [], 0, 2024, [], [], [], 0, [], [], [], [], []⟩,
         ⟨chars "aaaaaa", [' '], 0, 2024, [], [], [], 0, [], [], [], [], []⟩]).length = 1 ∧
    (removeDuplicates
        [⟨chars "aaaaaa", [], 0, 2024, [], [], [], 0, [], [], [], [], []⟩,
         ⟨chars "aaaaaa", [], 0, 2024, [], [], [], 0, [], [], [], [], []⟩]).length = 1 := by
  decide

/-- C10 (amended): a record whose inn is non-empty whitespace is silently
dropped by the resolver — it is excluded from the fuzzy path (truthy inn)
and forms no exact group (empty stripped key), so the output equals the
output for the same input with the record removed entirely; for the
singleton input the output is empty, strictly smaller than the one-record
output of the empty-inn variant, but in general the whitespace variant's
output length need not be strictly smaller than the empty-inn variant's. -/
theorem whitespace_inn_record_dropped (c : Company)
    (h1 : c.inn ≠ []) (h2 : ∀ ch ∈ c.inn, isPySpace ch = true) :
    (∀ l1 l2 : List Company,
      removeDuplicates (l1 ++ c :: l2) = removeDuplicates (l1 ++ l2)) ∧
    removeDuplicates [c] = [] ∧
    removeDuplicates [{ c with inn := [] }] = [{ c with inn := [] }] := by
  have hstrip : pyStrip c.inn = [] := by
    unfold pyStrip
    rw [List.dropWhile_eq_nil_iff.mpr (fun x hx => h2 x hx)]
    rfl
  have hie : c.inn.isEmpty = false := by simpa [List.isEmpty_iff] using h1
  have hgbi : ∀ l1 l2 : List Company,
      groupByInn (l1 ++ c :: l2) = groupByInn (l1 ++ l2) := by
    intro l1 l2
    unfold groupByInn
    rw [List.foldl_append, List.foldl_append, List.foldl_cons]
    simp [innStep, hstrip]
  have hfil : ∀ l1 l2 : List Company,
      List.filter (fun x => x.inn.isEmpty) (l1 ++ c :: l2) =
        List.filter (fun x => x.inn.isEmpty) (l1 ++ l2) := by
    intro l1 l2
    rw [List.filter_append, List.filter_append, List.filter_cons_of_neg (by simp [hie])]
  refine ⟨?_, ?_, ?_⟩
  · intro l1 l2
    unfold removeDuplicates
    rw [hgbi, hfil]
  · simp [removeDuplicates, groupByInn, innStep, hstrip, hie, groupBySimilarity, groupBySimilarityAux]
  · simp [removeDuplicates, groupByInn, innStep, addToGroups, pyStrip, groupBySimilarity,
      groupBySimilarityAux, mergeCompanyGroup]

/-- C10 amended-claim witness at a concrete whitespace-inn record. -/
theorem whitespace_inn_record_dropped_witness :
    removeDuplicates
        [⟨chars "aaaaaa", [], 0, 2024, [], [], [], 0, [], [], [], [], []⟩,
         ⟨chars "bbbbbb", [' '], 0, 2024, [], [], [], 0, [], [], [], [], []⟩] =
      removeDuplicates
        [⟨chars "aaaaaa", [], 0, 2024, [], [], [], 0, [], [], [], [], []⟩] ∧
    removeDuplicates
        [⟨chars "bbbbbb", [' '], 0, 2024, [], [], [], 0, [], [], [], [], []⟩] = [] := by
  have h := whitespace_inn_record_dropped
    ⟨chars "bbbbbb", [' '], 0, 2024, [], [], [], 0, [], [], [], [], []⟩
    (by decide) (by decide)
  exact ⟨h.1 [⟨chars "aaaaaa", [], 0, 2024, [], [], [], 0, [], [], [], [], []⟩] [], h.2.1⟩

/-! ## Lemmas: the structure of `groupByInn` -/

theorem groupLookup_nil (k : List Char) : groupLookup [] k = [] := rfl

theorem groupLookup_cons (k0 : List Char) (g0 : List Company)
    (rest : List (List Char × List Company)) (k : List Char) :
    groupLookup ((k0, g0) :: rest) k = if k0 = k then g0 else groupLookup rest k := by
  by_cases h : k0 = k
  · rw [if_pos h]
    unfold groupLookup
    rw [List.find?_cons_of_pos _ (by simpa using h)]
    rfl
  · rw [if_neg h]
    unfold groupLookup
    rw [List.find?_cons_of_neg _ (by simpa using h)]

theorem groupLookup_addToGroups_self (gs : List (List Char × List Company))
    (k : List Char) (c : Company) :
    groupLookup (addToGroups gs k c) k = groupLookup gs k ++ [c] := by
  induction gs with
  | nil => simp [addToGroups, groupLookup_cons, groupLookup_nil]
  | cons kg rest ih =>
    obtain ⟨k0, g0⟩ := kg
    by_cases hk : k0 = k
    · subst hk
      have ha : addToGroups ((k0, g0) :: rest) k0 c = (k0, g0 ++ [c]) :: rest := by
        simp [addToGroups]
      rw [ha, groupLookup_cons, groupLookup_cons, if_pos rfl, if_pos rfl]
    · have ha : addToGroups ((k0, g0) :: rest) k c = (k0, g0) :: addToGroups rest k c := by
        simp [addToGroups, hk]
      rw [ha, groupLookup_cons, groupLookup_cons, if_neg hk, if_neg hk, ih]

theorem groupLookup_addToGroups_other (gs : List (List Char × List Company))
    (k k' : List Char) (c : Company) (hkk : k' ≠ k) :
    groupLookup (addToGroups gs k c) k' = groupLookup gs k' := by
  induction gs with
  | nil =>
    have hk : k ≠ k' := Ne.symm hkk
    simp [addToGroups, groupLookup_cons, groupLookup_nil, if_neg hk]
  | cons kg rest ih =>
    obtain ⟨k0, g0⟩ := kg
    by_cases hk : k0 = k
    · subst hk
      have hk0 : k0 ≠ k' := Ne.symm hkk
      have ha : addToGroups ((k0, g0) :: rest) k0 c = (k0, g0 ++ [c]) :: rest := by
        simp [addToGroups]
      rw [ha, groupLookup_cons, groupLookup_cons, if_neg hk0, if_neg hk0]
    · have ha : addToGroups ((k0, g0) :: rest) k c = (k0, g0) :: addToGroups rest k c := by
        simp [addToGroups, hk]
      rw [ha, groupLookup_cons, groupLookup_cons, ih]

theorem groupLookup_groupByInn_fold (cs : List Company) :
    ∀ (gs : List (List Char × List Company)) (K : List Char), K ≠ [] →
      groupLookup (cs.foldl innStep gs) K =
        groupLookup gs K ++ cs.filter (fun c => decide (pyStrip c.inn = K)) := by
  induction cs with
  | nil => intro gs K _; simp
  | cons c rest ih =>
    intro gs K hK
    rw [List.foldl_cons]
    by_cases hk : (pyStrip c.inn).isEmpty
    · have hz : pyStrip c.inn = [] := List.isEmpty_iff.mp hk
      have hstep : innStep gs c = gs := by simp [innStep, hk]
      have hnotK : ¬(pyStrip c.inn = K) := by rw [hz]; exact fun h => hK h.symm
      rw [hstep, List.filter_cons_of_neg (by simpa using hnotK), ih gs K hK]
    · have hstep : innStep gs c = addToGroups gs (pyStrip c.inn) c := by
        simp [innStep, hk]
      rw [hstep]
      by_cases hkey : pyStrip c.inn = K
      · rw [ih _ K hK, hkey, groupLookup_addToGroups_self,
          List.filter_cons_of_pos (by simpa using hkey), List.append_assoc]
        rfl
      · rw [ih _ K hK, groupLookup_addToGroups_other gs _ K c (fun h => hkey h.symm),
          List.filter_cons_of_neg (by simpa using hkey)]

theorem groupLookup_mem (gs : List (List Char × List Company)) (K : List Char)
    (h : groupLookup gs K ≠ []) :
    ∃ g ∈ gs, g.1 = K ∧ g.2 = groupLookup gs K := by
  unfold groupLookup at *
  cases hf : gs.find? (fun g => g.1 = K) with
  | none => rw [hf] at h; simp at h
  | some g =>
    refine ⟨g, List.mem_of_find?_eq_some hf, ?_, ?_⟩
    · simpa using List.find?_some hf
    · rfl

/-- Every record with stripped key `K ≠ []` lands in the single group
keyed `K`, whose members are exactly the input records with that key. -/
theorem groupByInn_members (cs : List Company) (K : List Char) (hK : K ≠ []) :
    groupLookup (groupByInn cs) K = cs.filter (fun c => decide (pyStrip c.inn = K)) := by
  unfold groupByInn
  rw [groupLookup_groupByInn_fold cs [] K hK, groupLookup_nil]
  rfl

theorem addToGroups_key_sub (gs : List (List Char × List Company)) (k : List Char)
    (c : Company) :
    ∀ g ∈ addToGroups gs k c, g.1 = k ∨ g.1 ∈ gs.map Prod.fst := by
  induction gs with
  | nil => simp [addToGroups]
  | cons kg rest ih =>
    obtain ⟨k0, g0⟩ := kg
    by_cases hk : k0 = k
    · subst hk
      simp only [addToGroups, if_pos rfl]
      intro g hg
      rcases List.mem_cons.mp hg with h | h
      · left; rw [h]
      · right
        exact List.mem_cons_of_mem _ (List.mem_map_of_mem Prod.fst h)
    · simp only [addToGroups, if_neg hk]
      intro g hg
      rcases List.mem_cons.mp hg with h | h
      · right; rw [h]; simp
      · rcases ih g h with h' | h'
        · exact Or.inl h'
        · right
          simp only [List.map_cons]
          exact List.mem_cons_of_mem _ h'

theorem addToGroups_val_ne (gs : List (List Char × List Company)) (k : List Char)
    (c : Company) (hgs : ∀ g ∈ gs, g.2 ≠ []) :
    ∀ g ∈ addToGroups gs k c, g.2 ≠ [] := by
  induction gs with
  | nil => simp [addToGroups]
  | cons kg rest ih =>
    obtain ⟨k0, g0⟩ := kg
    by_cases hk : k0 = k
    · subst hk
      simp only [addToGroups, if_pos rfl]
      intro g hg
      rcases List.mem_cons.mp hg with h | h
      · rw [h]; simp
      · exact hgs g (List.mem_cons_of_mem _ h)
    · simp only [addToGroups, if_neg hk]
      intro g hg
      rcases List.mem_cons.mp hg with h | h
      · rw [h]; exact hgs (k0, g0) (List.mem_cons_self _ _)
      · exact ih (fun g' hg' => hgs g' (List.mem_cons_of_mem _ hg')) g h

/-- Invariant of the `_group_by_inn` fold: every produced group has a
non-empty key and at least one member. -/
theorem groupByInn_fold_inv (cs : List Company) :
    ∀ gs : List (List Char × List Company),
      (∀ g ∈ gs, g.1 ≠ [] ∧ g.2 ≠ []) →
      ∀ g ∈ cs.foldl innStep gs, g.1 ≠ [] ∧ g.2 ≠ [] := by
  induction cs with
  | nil => intro gs hgs; simpa using hgs
  | cons c rest ih =>
    intro gs hgs
    rw [List.foldl_cons]
    by_cases hk : (pyStrip c.inn).isEmpty
    · have hstep : innStep gs c = gs := by simp [innStep, hk]
      rw [hstep]; exact ih gs hgs
    · have hstep : innStep gs c = addToGroups gs (pyStrip c.inn) c := by
        simp [innStep, hk]
      rw [hstep]
      refine ih _ (fun g hg =>
        ⟨?_, addToGroups_val_ne gs _ c (fun g' hg' => (hgs g' hg').2) g hg⟩)
      rcases addToGroups_key_sub gs (pyStrip c.inn) c g hg with h | h
      · rw [h]; simpa [List.isEmpty_iff] using hk
      · rcases List.mem_map.mp h with ⟨g', hg', hfst⟩
        rw [← hfst]; exact (hgs g' hg').1

theorem groupByInn_inv (cs : List Company) :
    ∀ g ∈ groupByInn cs, g.1 ≠ [] ∧ g.2 ≠ [] :=
  groupByInn_fold_inv cs [] (by simp)

/-! ## Lemmas: multiset structure of the grouping passes -/

theorem addToGroups_flatMap_perm (gs : List (List Char × List Company)) (k : List Char)
    (c : Company) :
    List.Perm ((addToGroups gs k c).flatMap Prod.snd) (gs.flatMap Prod.snd ++ [c]) := by
  induction gs with
  | nil => simp [addToGroups]
  | cons kg rest ih =>
    obtain ⟨k0, g0⟩ := kg
    by_cases hk : k0 = k
    · subst hk
      have ha : addToGroups ((k0, g0) :: rest) k0 c = (k0, g0 ++ [c]) :: rest := by
        simp [addToGroups]
      rw [ha]
      simp only [List.flatMap_cons, List.append_assoc]
      exact List.Perm.append_left g0 List.perm_append_comm
    · have ha : addToGroups ((k0, g0) :: rest) k c = (k0, g0) :: addToGroups rest k c := by
        simp [addToGroups, hk]
      rw [ha]
      simp only [List.flatMap_cons, List.append_assoc]
      exact List.Perm.append_left g0 ih

theorem groupByInn_fold_flatMap_perm (cs : List Company) :
    ∀ gs : List (List Char × List Company),
      List.Perm ((cs.foldl innStep gs).flatMap Prod.snd)
        (gs.flatMap Prod.snd ++ cs.filter (fun c => !(pyStrip c.inn).isEmpty)) := by
  induction cs with
  | nil => intro gs; simp
  | cons c rest ih =>
    intro gs
    rw [List.foldl_cons]
    by_cases hk : (pyStrip c.inn).isEmpty
    · have hstep : innStep gs c = gs := by simp [innStep, hk]
      rw [hstep, List.filter_cons_of_neg (by simp [hk])]
      exact ih gs
    · have hstep : innStep gs c = addToGroups gs (pyStrip c.inn) c := by
        simp [innStep, hk]
      rw [hstep, List.filter_cons_of_pos (by simp [hk])]
      refine (ih _).trans ?_
      have h2 := (addToGroups_flatMap_perm gs (pyStrip c.inn) c).append_right
        (rest.filter (fun c => !(pyStrip c.inn).isEmpty))
      refine h2.trans ?_
      rw [List.append_assoc]
      rfl

theorem groupByInn_flatMap_perm (cs : List Company) :
    List.Perm ((groupByInn cs).flatMap Prod.snd)
      (cs.filter (fun c => !(pyStrip c.inn).isEmpty)) := by
  simpa using groupByInn_fold_flatMap_perm cs []

theorem groupBySimilarityAux_flatten_perm :
    ∀ (fuel : Nat) (cs : List Company), cs.length ≤ fuel →
      List.Perm (groupBySimilarityAux fuel cs).flatten cs := by
  intro fuel
  induction fuel with
  | zero =>
    intro cs hcs
    have : cs = [] := List.eq_nil_of_length_eq_zero (Nat.le_zero.mp hcs)
    subst this
    simp [groupBySimilarityAux]
  | succ n ih =>
    intro cs hcs
    cases cs with
    | nil => simp [groupBySimilarityAux]
    | cons c rest =>
      simp only [groupBySimilarityAux, List.flatten_cons, List.cons_append]
      refine List.Perm.cons c ?_
      have hlen : (rest.filter (fun c2 =>
          !areNamesSimilar (normalizeNameForComparison c.name)
            (normalizeNameForComparison c2.name))).length ≤ n := by
        have := List.length_filter_le (fun c2 =>
          !areNamesSimilar (normalizeNameForComparison c.name)
            (normalizeNameForComparison c2.name)) rest
        simp only [List.length_cons] at hcs
        omega
      refine (List.Perm.append_left _ (ih _ hlen)).trans ?_
      exact List.filter_append_perm _ rest

theorem groupBySimilarity_flatten_perm (cs : List Company) :
    List.Perm (groupBySimilarity cs).flatten cs :=
  groupBySimilarityAux_flatten_perm cs.length cs le_rfl

theorem groupBySimilarityAux_ne_nil :
    ∀ (fuel : Nat) (cs : List Company), ∀ g ∈ groupBySimilarityAux fuel cs, g ≠ [] := by
  intro fuel
  induction fuel with
  | zero => intro cs g hg; simp [groupBySimilarityAux] at hg
  | succ n ih =>
    intro cs g hg
    cases cs with
    | nil => simp [groupBySimilarityAux] at hg
    | cons c rest =>
      simp only [groupBySimilarityAux] at hg
      rcases List.mem_cons.mp hg with h | h
      · rw [h]; simp
      · exact ih _ g h

theorem length_le_flatMap_of_ne_nil (gs : List (List Char × List Company))
    (h : ∀ g ∈ gs, g.2 ≠ []) :
    gs.length ≤ (gs.flatMap Prod.snd).length := by
  induction gs with
  | nil => simp
  | cons g rest ih =>
    simp only [List.flatMap_cons, List.length_append, List.length_cons]
    have h1 : 1 ≤ g.2.length :=
      List.length_pos.mpr (h g (List.mem_cons_self _ _))
    have h2 := ih (fun g' hg' => h g' (List.mem_cons_of_mem _ hg'))
    omega

theorem length_le_flatten_of_ne_nil (ls : List (List Company))
    (h : ∀ l ∈ ls, l ≠ []) :
    ls.length ≤ ls.flatten.length := by
  induction ls with
  | nil => simp
  | cons l rest ih =>
    simp only [List.flatten_cons, List.length_append, List.length_cons]
    have h1 : 1 ≤ l.length := List.length_pos.mpr (h l (List.mem_cons_self _ _))
    have h2 := ih (fun l' hl' => h l' (List.mem_cons_of_mem _ hl'))
    omega

/-- C3: on inputs whose tax ids are digit strings or empty, the resolver's
output has at most the input's length; the output is exactly one record
per inn-group plus one per fuzzy-name group; the two grouping passes
partition the input (their members are a permutation of it); and any two
records sharing the same non-empty tax id lie in the same single
inn-group (hence contribute to one output record, with no fuzzy matching
involved). -/
theorem resolver_grouping_partition (cs : List Company)
    (h : ∀ c ∈ cs, ∀ ch ∈ c.inn, isPyDigit ch = true) :
    (removeDuplicates cs).length ≤ cs.length ∧
    (removeDuplicates cs).length =
      (groupByInn cs).length +
        (groupBySimilarity (cs.filter (fun c => c.inn.isEmpty))).length ∧
    List.Perm
      ((groupByInn cs).flatMap Prod.snd ++
        (groupBySimilarity (cs.filter (fun c => c.inn.isEmpty))).flatten)
      cs ∧
    (∀ r1 ∈ cs, ∀ r2 ∈ cs, r1.inn ≠ [] → r1.inn = r2.inn →
      ∃ g ∈ groupByInn cs, r1 ∈ g.2 ∧ r2 ∈ g.2) := by
  have hstrip : ∀ c ∈ cs, pyStrip c.inn = c.inn := fun c hc => pyStrip_of_digits (h c hc)
  have hfe : (groupByInn cs).filter (fun g => !g.1.isEmpty) = groupByInn cs := by
    refine List.filter_eq_self.mpr (fun g hg => ?_)
    simp [List.isEmpty_iff, (groupByInn_inv cs g hg).1]
  have hlen2 : (removeDuplicates cs).length =
      (groupByInn cs).length +
        (groupBySimilarity (cs.filter (fun c => c.inn.isEmpty))).length := by
    simp only [removeDuplicates]
    rw [hfe]
    simp
  have hfc : cs.filter (fun c => !(pyStrip c.inn).isEmpty) =
      cs.filter (fun c => !c.inn.isEmpty) :=
    List.filter_congr (fun c hc => by rw [hstrip c hc])
  have hperm : List.Perm
      ((groupByInn cs).flatMap Prod.snd ++
        (groupBySimilarity (cs.filter (fun c => c.inn.isEmpty))).flatten)
      cs := by
    have hinn : List.Perm ((groupByInn cs).flatMap Prod.snd)
        (cs.filter (fun c => !c.inn.isEmpty)) := by
      rw [← hfc]; exact groupByInn_flatMap_perm cs
    refine (List.Perm.append hinn (groupBySimilarity_flatten_perm _)).trans ?_
    refine List.Perm.trans List.perm_append_comm ?_
    exact List.filter_append_perm (fun c : Company => c.inn.isEmpty) cs
  refine ⟨?_, hlen2, hperm, ?_⟩
  · rw [hlen2]
    have h1 := length_le_flatMap_of_ne_nil (groupByInn cs)
      (fun g hg => (groupByInn_inv cs g hg).2)
    have h2 := length_le_flatten_of_ne_nil
      (groupBySimilarity (cs.filter (fun c => c.inn.isEmpty)))
      (fun g hg => groupBySimilarityAux_ne_nil _ _ g hg)
    have h3 := hperm.length_eq
    simp only [List.length_append] at h3
    omega
  · intro r1 h1 r2 h2 hne hinn
    have hK : pyStrip r1.inn = r1.inn := hstrip r1 h1
    have hmem : groupLookup (groupByInn cs) r1.inn =
        cs.filter (fun c => decide (pyStrip c.inn = r1.inn)) :=
      groupByInn_members cs r1.inn hne
    have hr1 : r1 ∈ groupLookup (groupByInn cs) r1.inn := by
      rw [hmem]
      exact List.mem_filter.mpr ⟨h1, by simpa using hK⟩
    have hr2 : r2 ∈ groupLookup (groupByInn cs) r1.inn := by
      rw [hmem]
      refine List.mem_filter.mpr ⟨h2, ?_⟩
      have hk2 : pyStrip r2.inn = r2.inn := hstrip r2 h2
      simp [hk2, hinn.symm, hK]
    rcases groupLookup_mem (groupByInn cs) r1.inn (fun hz => by
      rw [hz] at hr1; cases hr1) with ⟨g, hg, _, hval⟩
    exact ⟨g, hg, by rw [hval]; exact hr1, by rw [hval]; exact hr2⟩

/-- C3 witness: three concrete records — two sharing tax id `7707083893`
and one with an empty tax id. -/
theorem resolver_grouping_partition_witness :
    (removeDuplicates
        [⟨chars "LBL Group", chars "7707083893", 0, 2024, [], [], [], 0, [], [], [], [], []⟩,
         ⟨chars "LBL", chars "7707083893", 500000000, 2024, [], [], [], 0, [], [], [], [], []⟩,
         ⟨chars "Oasis", [], 0, 2024, [], [], [], 0, [], [], [], [], []⟩]).length ≤ 3 ∧
    (∃ g ∈ groupByInn
        [⟨chars "LBL Group", chars "7707083893", 0, 2024, [], [], [], 0, [], [], [], [], []⟩,
         ⟨chars "LBL", chars "7707083893", 500000000, 2024, [], [], [], 0, [], [], [], [], []⟩,
         ⟨chars "Oasis", [], 0, 2024, [], [], [], 0, [], [], [], [], []⟩],
      (⟨chars "LBL Group", chars "7707083893", 0, 2024, [], [], [], 0, [], [], [], [], []⟩ :
        Company) ∈ g.2 ∧
      (⟨chars "LBL", chars "7707083893", 500000000, 2024, [], [], [], 0, [], [], [], [], []⟩ :
        Company) ∈ g.2) := by
  have h := resolver_grouping_partition
    [⟨chars "LBL Group", chars "7707083893", 0, 2024, [], [], [], 0, [], [], [], [], []⟩,
     ⟨chars "LBL", chars "7707083893", 500000000, 2024, [], [], [], 0, [], [], [], [], []⟩,
     ⟨chars "Oasis", [], 0, 2024, [], [], [], 0, [], [], [], [], []⟩]
    (by decide)
  refine ⟨by simpa using h.1, ?_⟩
  exact h.2.2.2 _ (by simp) _ (by simp) (by decide) rfl

/-- C9 witness: a record whose `name` is the integer 5 raises `TypeError`
inside `clean_text`; the error is caught, the record dropped, and the
surrounding good records survive in order. -/
theorem batch_cleaning_total_witness :
    cleanSingleE 200000000 { name := .vint 5 } = .error .typeError ∧
    cleanSingleCompany 200000000 { name := .vint 5 } = none ∧
    cleanCompaniesData 200000000 [{ name := .vstr (chars "Acme Agency") }, { name := .vint 5 }] =
      List.filterMap (cleanSingleCompany 200000000)
        [{ name := .vstr (chars "Acme Agency") }, { name := .vint 5 }] := by
  have h := batch_cleaning_total 200000000
    [{ name := .vstr (chars "Acme Agency") }, { name := .vint 5 }]
  exact ⟨by decide, h.2.1 { name := .vint 5 } (by simp) PyErr.typeError (by decide), h.1⟩

end BtlScraper
